import Mathlib

set_option maxRecDepth 100000

/-!
Verification development for the `jsonfmt` Go library (github.com/mitranim/jsonfmt).

The formatter is a single forward scan over an immutable UTF-8 source with an
output buffer, row/column tracking, a discard flag for stripped comments, and a
snapshot/rollback mechanism implementing speculative single-line layout.

Embedding conventions:
* Go strings (source, config fields, output buffer) are modelled as `List Char`,
  i.e. sequences of Unicode code points.  The Go code indexes bytes, but every
  byte-level operation it performs (single-byte peeks against ASCII constants,
  byte-prefix tests against valid UTF-8 delimiter strings, advancing by the byte
  length of a decoded rune or of a matched prefix) acts on whole code points for
  valid UTF-8 input, because UTF-8 continuation and lead bytes never collide
  with ASCII and byte-prefix matches of valid UTF-8 strings align with code
  point boundaries.  So one `Char` here corresponds to one source code point,
  and lengths count code points where Go counts bytes of the same segments.
* Mutation of the `fmter` struct becomes explicit state passing (`St`).
* `panic(rollback)` / `recover` becomes the `Res.abort` outcome, caught by the
  explicit attempt wrappers; any other Go panic (assertion failure, index out
  of range) becomes the `Res.panicked` outcome, which propagates to the top.
* Go `defer` actions are performed on every exit path of the modelled function,
  including the abort path, mirroring deferred calls running during unwinding.
* Loops and the recursive dispatcher take explicit fuel; running out of fuel is
  the `Res.fuelOut` outcome, an artifact of the embedding only.  Loop fuel is
  taken as `remaining input + 1`, enough because every loop iteration of the Go
  code either consumes at least one input byte or exits.
-/

namespace Jsonfmt

/-- Configuration, mirroring Go `Conf` (jsonfmt.go).  `Width` is `uint64` in Go
and the output column an `int`; both are non-negative in every reachable state,
so `Nat` is faithful. -/
structure Conf where
  Indent : List Char
  Width : Nat
  CommentLine : List Char
  CommentBlockStart : List Char
  CommentBlockEnd : List Char
  TrailingComma : Bool
  StripComments : Bool
deriving Repr, DecidableEq

/-- The fields of a snapshot that the Go code ever reads back: `reset` uses
`cursor`, `indent`, `row`, `col` and `buf.Len()`; `exceedsLine` uses `row`.
Go's `snap` copies the whole `fmter`, but only these fields of the copy are
consulted. -/
structure Snap where
  cursor : Nat
  indent : Nat
  row : Nat
  col : Nat
  bufLen : Nat
deriving Repr, DecidableEq

/-- Formatter state, mirroring Go `fmter`. -/
structure St where
  source : List Char
  cursor : Nat
  conf : Conf
  buf : List Char
  indent : Nat
  row : Nat
  col : Nat
  discard : Bool
  snapshot : Option Snap
deriving Repr, DecidableEq

/-- Outcome of running a formatter computation: normal return, the
`panic(rollback)` unwind of a failed single-line attempt, any other Go panic
(assertion failure / slice index error), or fuel exhaustion (embedding
artifact). -/
inductive Res (α : Type) where
  | ok : α → St → Res α
  | abort : St → Res α
  | panicked : Res α
  | fuelOut : Res α
deriving Repr, DecidableEq

/-- A formatter computation: state in, outcome out. -/
def M (α : Type) : Type := St → Res α

/-- Sequencing: normal results continue, every abnormal outcome propagates. -/
def mBind {α β : Type} (m : M α) (f : α → M β) : M β := fun s =>
  match m s with
  | Res.ok a s1 => f a s1
  | Res.abort s1 => Res.abort s1
  | Res.panicked => Res.panicked
  | Res.fuelOut => Res.fuelOut

instance : Monad M where
  pure a := fun s => Res.ok a s
  bind := mBind

def getSt : M St := fun s => Res.ok s s

def setSt (s : St) : M Unit := fun _ => Res.ok () s

def modifySt (f : St → St) : M Unit := fun s => Res.ok () (f s)

/-- Go `assert`: panics (not the rollback sentinel) when the condition fails. -/
def assertM (b : Bool) : M Unit := fun s =>
  if b then Res.ok () s else Res.panicked

def toSnap (s : St) : Snap :=
  { cursor := s.cursor, indent := s.indent, row := s.row, col := s.col,
    bufLen := s.buf.length }

/-- Go `reset`: restores cursor, indent, row, col and truncates the buffer to
the recorded length. -/
def resetSt (prev : Snap) (s : St) : St :=
  { s with cursor := prev.cursor, indent := prev.indent, row := prev.row,
           col := prev.col, buf := s.buf.take prev.bufLen }

/-! ### Pure queries on the state (cursor / scanner primitives) -/

def leftN (s : St) : Nat := s.source.length - s.cursor

def moreB (s : St) : Bool := decide (0 < leftN s)

def restOf (s : St) : List Char := s.source.drop s.cursor

/-- Go `headByte`: first byte of the remaining input, 0 past the end.  For
valid UTF-8 this is compared only against ASCII constants, where it agrees
with the first remaining code point. -/
def headChar (s : St) : Char :=
  match restOf s with
  | [] => Char.ofNat 0
  | c :: _ => c

def isNextByte (c : Char) (s : St) : Bool := decide (headChar s = c)

def isNextPrefixB (p : List Char) (s : St) : Bool := p.isPrefixOf (restOf s)

def isNextSpace (s : St) : Bool :=
  isNextByte ' ' s || isNextByte '\t' s ||
    isNextByte (Char.ofNat 11) s || isNextByte '\n' s || isNextByte '\r' s

def isNextPunctuation (s : St) : Bool := isNextByte ',' s || isNextByte ':' s

/-- Go `nextCommentLinePrefix`. -/
def nextCommentLineVal (s : St) : List Char :=
  if !s.conf.CommentLine.isEmpty && isNextPrefixB s.conf.CommentLine s then
    s.conf.CommentLine
  else []

/-- Go `nextCommentBlockPrefixSuffix`. -/
def nextCommentBlockVal (s : St) : List Char × List Char :=
  if !s.conf.CommentBlockStart.isEmpty && !s.conf.CommentBlockEnd.isEmpty &&
      isNextPrefixB s.conf.CommentBlockStart s then
    (s.conf.CommentBlockStart, s.conf.CommentBlockEnd)
  else ([], [])

def isNextCommentLine (s : St) : Bool := !(nextCommentLineVal s).isEmpty

def isNextCommentBlock (s : St) : Bool :=
  !(nextCommentBlockVal s).1.isEmpty && !(nextCommentBlockVal s).2.isEmpty

def isNextComment (s : St) : Bool := isNextCommentLine s || isNextCommentBlock s

def isNextTerminal (s : St) : Bool :=
  isNextByte '{' s || isNextByte '}' s || isNextByte '[' s ||
    isNextByte ']' s || isNextByte ',' s || isNextByte ':' s ||
    isNextByte '"' s || isNextComment s

/-- The value of the `uint64` field `Width`: the stored `Nat` reduced
mod 2^64 (a faithful Go `Conf` always stores a value below 2^64, but the
reduction keeps every state of the model meaningful). -/
def widthVal (c : Conf) : Nat := c.Width % 2 ^ 64

/-- Go's `int(w)` for `w uint64` on a 64-bit platform: two's-complement
reinterpretation — values below 2^63 map to themselves, larger values wrap
to negative numbers. -/
def intOfUInt64 (n : Nat) : Int :=
  if n % 2 ^ 64 < 2 ^ 63 then ((n % 2 ^ 64 : Nat) : Int)
  else ((n % 2 ^ 64 : Nat) : Int) - 2 ^ 64

/-- Go `preferSingle`: `self.conf.Width > 0` as a `uint64` comparison. -/
def preferSingleB (s : St) : Bool := decide (0 < widthVal s.conf)

def whitespaceB (s : St) : Bool := !s.conf.Indent.isEmpty

/-- Go `hasNewlineSuffix`: whether the output buffer ends in `\n` or `\r`
(single-byte suffix test; the last byte of a valid UTF-8 buffer is the last
code point exactly when that code point is ASCII, which `\n`/`\r` are). -/
def hasNewlineSuffix (s : St) : Bool :=
  match s.buf.getLast? with
  | some c => decide (c = '\n') || decide (c = '\r')
  | none => false

/-- Go `exceedsLine`: `self.row > prev.row || self.conf.Width > 0 &&
self.col > int(self.conf.Width)`.  The output row moved past the snapshot's
row, or the width limit is nonzero (as `uint64`) and the current column
exceeds `int(Width)` — the two's-complement reinterpretation of the `uint64`
width as a signed 64-bit `int`, which is negative for `Width ≥ 2^63`, making
every comparison succeed there. -/
def exceedsLine (s : St) (prev : Snap) : Bool :=
  decide (prev.row < s.row) ||
    (decide (0 < widthVal s.conf) &&
      decide (intOfUInt64 s.conf.Width < (s.col : Int)))

/-! ### Writers.  All writes funnel through `writeRuneM` (Go `writeRune`). -/

/-- The state update performed by a non-discarded write of one code point:
`\n` and `\r` bump the row and reset the column, anything else bumps the
column by exactly one (independently of the code point's UTF-8 byte length);
the code point is appended to the buffer. -/
def writeUpd (c : Char) (s : St) : St :=
  if c = '\n' ∨ c = '\r' then
    { s with row := s.row + 1, col := 0, buf := s.buf ++ [c] }
  else
    { s with col := s.col + 1, buf := s.buf ++ [c] }

/-- Go `writeRune`: in discard mode do nothing; otherwise update row/column,
append the code point, then abort the active single-line attempt if this write
crossed into a new row or past the width limit. -/
def writeRuneM (c : Char) : M Unit := fun s =>
  if s.discard then Res.ok () s
  else
    match (writeUpd c s).snapshot with
    | some prev =>
        if exceedsLine (writeUpd c s) prev then Res.abort (writeUpd c s)
        else Res.ok () (writeUpd c s)
    | none => Res.ok () (writeUpd c s)

/-- Go `writeByte` delegates to `writeRune`. -/
def writeByteM (c : Char) : M Unit := writeRuneM c

def writeStringM : List Char → M Unit
  | [] => pure ()
  | c :: cs => do
      writeRuneM c
      writeStringM cs

def writeMaybeSeparatorM : M Unit := do
  let s ← getSt
  if whitespaceB s then writeByteM ' ' else pure ()

def writeMaybeTrailingCommaM : M Unit := do
  let s ← getSt
  if s.conf.TrailingComma then writeByteM ',' else pure ()

def writeMaybeNewlineM : M Unit := do
  let s ← getSt
  if whitespaceB s && !hasNewlineSuffix s then writeByteM '\n' else pure ()

/-- Go `writeNewline`: a forced newline — if the maybe-newline wrote nothing
(per buffer length), write one unconditionally.  Note that in discard mode
both writes are suppressed. -/
def writeNewlineM : M Unit := do
  let s0 ← getSt
  writeMaybeNewlineM
  let s1 ← getSt
  if decide (s0.buf.length < s1.buf.length) then pure () else writeByteM '\n'

def writeIndentN : Nat → M Unit
  | 0 => pure ()
  | n + 1 => do
      let s ← getSt
      writeStringM s.conf.Indent
      writeIndentN n

def writeIndentM : M Unit := do
  let s ← getSt
  writeIndentN s.indent

def writeMaybeNewlineIndentM : M Unit := do
  let s ← getSt
  if whitespaceB s then do
    writeMaybeNewlineM
    writeIndentM
  else pure ()

def writeMaybeCommentNewlineIndentM : M Unit := do
  let s ← getSt
  if s.conf.StripComments then pure () else writeMaybeNewlineIndentM

def writeMaybeCommentNewlineM : M Unit := do
  let s ← getSt
  if s.conf.StripComments then pure () else writeMaybeNewlineM

/-! ### Cursor movement -/

def skipByteM : M Unit := modifySt fun s => { s with cursor := s.cursor + 1 }

/-- Go `skipChar` advances by the byte length of the decoded rune (0 at end of
input, where it is never reached with `more` false except harmlessly). -/
def skipCharM : M Unit := modifySt fun s =>
  if s.cursor < s.source.length then { s with cursor := s.cursor + 1 } else s

def skipStringM (str : List Char) : M Unit :=
  modifySt fun s => { s with cursor := s.cursor + str.length }

/-- Go `char`: decode the next code point, write it, advance past it.  At end
of input the Go code would fail its `assert(size > 0)`, i.e. panic. -/
def charM : M Unit := fun s =>
  match restOf s with
  | [] => Res.panicked
  | c :: _ =>
      (do
        writeRuneM c
        modifySt fun t => { t with cursor := t.cursor + 1 }) s

/-- Go `byte`: write `source[cursor]` and advance one byte.  Out of range
would be a Go runtime panic.  Call sites only use it on ASCII bytes. -/
def byteM : M Unit := fun s =>
  match restOf s with
  | [] => Res.panicked
  | c :: _ =>
      (do
        writeRuneM c
        modifySt fun t => { t with cursor := t.cursor + 1 }) s

def strIncM (str : List Char) : M Unit := do
  writeStringM str
  skipStringM str

/-- Go `scanned`: run the action and report whether the cursor advanced. -/
def scannedM (m : M Unit) : M Bool := do
  let s0 ← getSt
  m
  let s1 ← getSt
  pure (decide (s0.cursor < s1.cursor))

/-- Go `skipped`: consume one byte of whitespace or stray punctuation. -/
def skippedM : M Bool := do
  let s ← getSt
  if isNextSpace s || isNextPunctuation s then do
    skipByteM
    pure true
  else pure false

/-! ### Leaf scanners: strings, atoms, comments (Go `string`, `atom`,
`commentSingle`, `commentMulti`).  Their loops consume at least one input code
point per iteration, so fuel `remaining + 1` never runs out in reachable use. -/

def stringLoop : Nat → M Unit
  | 0 => fun _ => Res.fuelOut
  | n + 1 => do
      let s ← getSt
      if moreB s then
        if isNextByte '"' s then byteM
        else if isNextByte '\\' s then do
          byteM
          let s1 ← getSt
          if moreB s1 then charM else pure ()
          stringLoop n
        else do
          charM
          stringLoop n
      else pure ()

def stringFn : M Unit := do
  let s ← getSt
  assertM (isNextByte '"' s)
  byteM
  let s1 ← getSt
  stringLoop (leftN s1 + 1)

def atomLoop : Nat → M Unit
  | 0 => fun _ => Res.fuelOut
  | n + 1 => do
      let s ← getSt
      if moreB s && !isNextSpace s && !isNextTerminal s then do
        charM
        atomLoop n
      else pure ()

def atomFn : M Unit := do
  let s ← getSt
  atomLoop (leftN s + 1)

/-- Go `defer self.setDiscard(false)` around a comment body when comments are
stripped: discard is set on entry and cleared on every exit path, including
the unwinding of a rollback. -/
def withDiscard (body : M Unit) : M Unit := fun s =>
  match body { s with discard := true } with
  | Res.ok _ s1 => Res.ok () { s1 with discard := false }
  | Res.abort s1 => Res.abort { s1 with discard := false }
  | Res.panicked => Res.panicked
  | Res.fuelOut => Res.fuelOut

def commentSingleLoop : Nat → M Unit
  | 0 => fun _ => Res.fuelOut
  | n + 1 => do
      let s ← getSt
      if moreB s then
        if isNextPrefixB (("\r\n").data) s then do
          skipStringM (("\r\n").data)
          writeNewlineM
        else if isNextByte '\n' s || isNextByte '\r' s then do
          skipByteM
          writeNewlineM
        else do
          charM
          commentSingleLoop n
      else pure ()

def commentSingleFn : M Unit := fun s =>
  let pre := nextCommentLineVal s
  let body : M Unit := do
    strIncM pre
    let s1 ← getSt
    commentSingleLoop (leftN s1 + 1)
  (do
    assertM (!pre.isEmpty)
    if s.conf.StripComments then withDiscard body else body) s

/-- The block-comment loop.  `level` is the nesting counter; the Go code
starts it at 1, decrements on each end delimiter (returning at 0) and
increments on each further start delimiter, checking the end delimiter
first. -/
def commentMultiLoop (pre suf : List Char) : Nat → Nat → M Unit
  | 0, _ => fun _ => Res.fuelOut
  | n + 1, level => do
      let s ← getSt
      if moreB s then
        if isNextPrefixB suf s then do
          strIncM suf
          if level - 1 = 0 then pure ()
          else commentMultiLoop pre suf n (level - 1)
        else if isNextPrefixB pre s then do
          strIncM pre
          commentMultiLoop pre suf n (level + 1)
        else do
          charM
          commentMultiLoop pre suf n level
      else pure ()

def commentMultiFn : M Unit := fun s =>
  let ps := nextCommentBlockVal s
  let body : M Unit := do
    strIncM ps.1
    let s1 ← getSt
    commentMultiLoop ps.1 ps.2 (leftN s1 + 1) 1
  (do
    assertM (!ps.1.isEmpty && !ps.2.isEmpty)
    if s.conf.StripComments then withDiscard body else body) s

/-! ### Lookahead probe (Go `hasNonCommentsBefore`) -/

def hncbLoop (anyFn : M Unit) (c : Char) : Nat → M Bool
  | 0 => fun _ => Res.fuelOut
  | n + 1 => do
      let s ← getSt
      if moreB s then
        if isNextByte c s then pure false
        else do
          let sk ← skippedM
          if sk then hncbLoop anyFn c n
          else do
            let s1 ← getSt
            if isNextComment s1 then do
              let b ← scannedM anyFn
              assertM b
              hncbLoop anyFn c n
            else pure true
      else pure false

/-- Go `hasNonCommentsBefore`: scan ahead past whitespace, stray punctuation
and comments; report whether anything else precedes `c`.  The deferred
`reset` restores cursor, indent, row, col and the buffer length on every exit
path. -/
def hasNonCommentsBeforeFn (anyFn : M Unit) (c : Char) : M Bool := fun s =>
  match hncbLoop anyFn c (leftN s + 1) s with
  | Res.ok b s1 => Res.ok b (resetSt (toSnap s) s1)
  | Res.abort s1 => Res.abort (resetSt (toSnap s) s1)
  | Res.panicked => Res.panicked
  | Res.fuelOut => Res.fuelOut

/-! ### Dicts and lists -/

/-- Go `snap` + `defer maybeRollback(prev)` around a single-line attempt body:
activate a fresh snapshot for the body; on normal completion just restore the
previous snapshot reference; on rollback also reset the state to the
snapshot.  Other panics propagate. -/
def attemptSingle (body : M Unit) : M Unit := fun s =>
  match body { s with snapshot := some (toSnap s) } with
  | Res.ok _ s1 => Res.ok () { s1 with snapshot := s.snapshot }
  | Res.abort s1 => Res.ok () { resetSt (toSnap s) s1 with snapshot := s.snapshot }
  | Res.panicked => Res.panicked
  | Res.fuelOut => Res.fuelOut

def dictSingleLoop (anyFn : M Unit) (hncb : Char → M Bool) :
    Nat → Bool → M Unit
  | 0, _ => fun _ => Res.fuelOut
  | n + 1, key => do
      let s ← getSt
      if moreB s then
        if isNextByte '}' s then byteM
        else do
          let sk ← skippedM
          if sk then dictSingleLoop anyFn hncb n key
          else do
            let s1 ← getSt
            if isNextComment s1 then do
              let b ← scannedM anyFn
              assertM b
              dictSingleLoop anyFn hncb n key
            else if key then do
              let b ← scannedM anyFn
              assertM b
              writeByteM ':'
              writeMaybeSeparatorM
              dictSingleLoop anyFn hncb n false
            else do
              let b ← scannedM anyFn
              assertM b
              let hb ← hncb '}'
              if hb then do
                writeByteM ','
                writeMaybeSeparatorM
              else pure ()
              dictSingleLoop anyFn hncb n true
      else pure ()

def dictSingleBody (anyFn : M Unit) (hncb : Char → M Bool) : M Unit := do
  let s ← getSt
  assertM (isNextByte '{' s)
  byteM
  let s1 ← getSt
  dictSingleLoop anyFn hncb (leftN s1 + 1) true

def dictMultiLoop (anyFn : M Unit) (hncb : Char → M Bool) :
    Nat → Bool → M Unit
  | 0, _ => fun _ => Res.fuelOut
  | n + 1, key => do
      let s ← getSt
      if moreB s then
        if isNextByte '}' s then do
          modifySt fun t => { t with indent := t.indent - 1 }
          writeMaybeNewlineIndentM
          byteM
        else do
          let sk ← skippedM
          if sk then dictMultiLoop anyFn hncb n key
          else do
            let s1 ← getSt
            if isNextComment s1 then do
              writeMaybeCommentNewlineIndentM
              let b ← scannedM anyFn
              assertM b
              dictMultiLoop anyFn hncb n key
            else if key then do
              writeMaybeNewlineIndentM
              let b ← scannedM anyFn
              assertM b
              writeByteM ':'
              writeMaybeSeparatorM
              dictMultiLoop anyFn hncb n false
            else do
              let b ← scannedM anyFn
              assertM b
              let hb ← hncb '}'
              if hb then writeByteM ','
              else writeMaybeTrailingCommaM
              dictMultiLoop anyFn hncb n true
      else pure ()

def dictMultiFn (anyFn : M Unit) (hncb : Char → M Bool) : M Unit := do
  let s ← getSt
  assertM (isNextByte '{' s)
  modifySt fun t => { t with indent := t.indent + 1 }
  byteM
  writeMaybeNewlineM
  let s1 ← getSt
  dictMultiLoop anyFn hncb (leftN s1 + 1) true

/-- Go `dictSingle`: the body under snapshot/rollback protection. -/
def dictSingleFn (anyFn : M Unit) : M Unit :=
  attemptSingle (dictSingleBody anyFn (hasNonCommentsBeforeFn anyFn))

/-- Go `dict`: try the single-line rendering when the width limit is positive,
falling back to multi-line when the attempt was rolled back (cursor did not
advance). -/
def dictFn (anyFn : M Unit) : M Unit := do
  let s ← getSt
  if preferSingleB s then do
    let b ← scannedM (dictSingleFn anyFn)
    if b then pure ()
    else dictMultiFn anyFn (hasNonCommentsBeforeFn anyFn)
  else dictMultiFn anyFn (hasNonCommentsBeforeFn anyFn)

def listSingleLoop (anyFn : M Unit) (hncb : Char → M Bool) : Nat → M Unit
  | 0 => fun _ => Res.fuelOut
  | n + 1 => do
      let s ← getSt
      if moreB s then
        if isNextByte ']' s then byteM
        else do
          let sk ← skippedM
          if sk then listSingleLoop anyFn hncb n
          else do
            let s1 ← getSt
            if isNextComment s1 then do
              let b ← scannedM anyFn
              assertM b
              listSingleLoop anyFn hncb n
            else do
              let b ← scannedM anyFn
              assertM b
              let hb ← hncb ']'
              if hb then do
                writeByteM ','
                writeMaybeSeparatorM
              else pure ()
              listSingleLoop anyFn hncb n
      else pure ()

def listSingleBody (anyFn : M Unit) (hncb : Char → M Bool) : M Unit := do
  let s ← getSt
  assertM (isNextByte '[' s)
  byteM
  let s1 ← getSt
  listSingleLoop anyFn hncb (leftN s1 + 1)

def listMultiLoop (anyFn : M Unit) (hncb : Char → M Bool) : Nat → M Unit
  | 0 => fun _ => Res.fuelOut
  | n + 1 => do
      let s ← getSt
      if moreB s then
        if isNextByte ']' s then do
          modifySt fun t => { t with indent := t.indent - 1 }
          writeMaybeNewlineIndentM
          byteM
        else do
          let sk ← skippedM
          if sk then listMultiLoop anyFn hncb n
          else do
            let s1 ← getSt
            if isNextComment s1 then do
              writeMaybeCommentNewlineIndentM
              let b ← scannedM anyFn
              assertM b
              listMultiLoop anyFn hncb n
            else do
              writeMaybeNewlineIndentM
              let b ← scannedM anyFn
              assertM b
              let hb ← hncb ']'
              if hb then writeByteM ','
              else writeMaybeTrailingCommaM
              listMultiLoop anyFn hncb n
      else pure ()

def listMultiFn (anyFn : M Unit) (hncb : Char → M Bool) : M Unit := do
  let s ← getSt
  assertM (isNextByte '[' s)
  modifySt fun t => { t with indent := t.indent + 1 }
  byteM
  writeMaybeNewlineM
  let s1 ← getSt
  listMultiLoop anyFn hncb (leftN s1 + 1)

/-- Go `listSingle`: the body under snapshot/rollback protection. -/
def listSingleFn (anyFn : M Unit) : M Unit :=
  attemptSingle (listSingleBody anyFn (hasNonCommentsBeforeFn anyFn))

def listFn (anyFn : M Unit) : M Unit := do
  let s ← getSt
  if preferSingleB s then do
    let b ← scannedM (listSingleFn anyFn)
    if b then pure ()
    else listMultiFn anyFn (hasNonCommentsBeforeFn anyFn)
  else listMultiFn anyFn (hasNonCommentsBeforeFn anyFn)

/-- Go `any`: the value dispatcher.  Fuel decreases once per nesting level. -/
def anyFuel : Nat → M Unit
  | 0 => fun _ => Res.fuelOut
  | n + 1 => do
      let s ← getSt
      if isNextByte '{' s then dictFn (anyFuel n)
      else if isNextByte '[' s then listFn (anyFuel n)
      else if isNextByte '"' s then stringFn
      else if isNextCommentLine s then commentSingleFn
      else if isNextCommentBlock s then commentMultiFn
      else atomFn

/-- Go `top`: the top-level driver loop. -/
def topLoop : Nat → M Unit
  | 0 => fun _ => Res.fuelOut
  | n + 1 => do
      let s ← getSt
      if moreB s then do
        let sk ← skippedM
        if sk then topLoop n
        else do
          let s1 ← getSt
          if isNextComment s1 then do
            let b ← scannedM (anyFuel n)
            assertM b
            writeMaybeCommentNewlineM
            topLoop n
          else do
            let b ← scannedM (anyFuel n)
            if b then do
              writeMaybeNewlineM
              topLoop n
            else do
              skipCharM
              topLoop n
      else pure ()

/-! ### The entry point (Go `Format` / `FormatString` / `FormatBytes`) -/

def initSt (conf : Conf) (source : List Char) : St :=
  { source := source, cursor := 0, conf := conf, buf := [], indent := 0,
    row := 0, col := 0, discard := false, snapshot := none }

/-- Fuel for a whole run: far more than the number of top-level iterations
plus the maximal nesting depth, both bounded by the input length. -/
def fmtFuel (n : Nat) : Nat := (n + 2) * (n + 2) + 16

/-- Observable outcome of Go `Format`: the output text, or a panic (Go
crashes), or fuel exhaustion (embedding artifact, not a Go behaviour). -/
inductive Out where
  | ok : List Char → Out
  | panicked : Out
  | fuelOut : Out
deriving Repr, DecidableEq

/-- Go `Format`: run the driver on a fresh state and return the buffer.  An
uncaught rollback cannot occur (no snapshot is active at top level); it would
be an uncaught panic, hence mapped to `panicked`. -/
def Format (conf : Conf) (src : List Char) : Out :=
  match topLoop (fmtFuel src.length) (initSt conf src) with
  | Res.ok _ s => Out.ok s.buf
  | Res.abort _ => Out.panicked
  | Res.panicked => Out.panicked
  | Res.fuelOut => Out.fuelOut

/-- Convenience wrapper taking Lean strings. -/
def FormatS (conf : Conf) (src : String) : Out := Format conf src.data

/-- The Go `Default` configuration. -/
def Default : Conf :=
  { Indent := ("  ").data, Width := 80, CommentLine := ("//").data,
    CommentBlockStart := ("/*").data, CommentBlockEnd := ("*/").data,
    TrailingComma := false, StripComments := false }

/-! ### Auxiliary observers and a reference scanner used by the theorems -/

def resBuf {α : Type} : Res α → Option (List Char)
  | Res.ok _ s => some s.buf
  | Res.abort s => some s.buf
  | Res.panicked => none
  | Res.fuelOut => none

/-- The computation can only append to the buffer (modulo internal resets that
never truncate below the entry length). -/
def BufMono {α : Type} (m : M α) : Prop :=
  ∀ s b, resBuf (m s) = some b → s.buf <+: b

def isAbortRes {α : Type} : Res α → Bool
  | Res.abort _ => true
  | _ => false

/-- The fields that the leaf writers and scanners never change. -/
def SameCtx (s s1 : St) : Prop :=
  s1.source = s.source ∧ s1.conf = s.conf ∧ s1.discard = s.discard ∧
    s1.snapshot = s.snapshot

def isOkRes {α : Type} : Res α → Bool
  | Res.ok _ _ => true
  | _ => false

/-- Reference count of the code points consumed by a block-comment body, as
the specification describes it: a nesting counter (1 at the opening
delimiter), decremented at each occurrence of the end delimiter — the comment
closes when it reaches 0 — and incremented at each further occurrence of the
start delimiter, the end delimiter being checked first at each position; an
unterminated comment consumes the remaining input.  Fuel mirrors the loop's
fuel; `none` is fuel exhaustion. -/
def scanBlockSpec (pre suf : List Char) : Nat → Nat → List Char → Option Nat
  | 0, _, _ => none
  | n + 1, level, input =>
      if input.isEmpty then some 0
      else if suf.isPrefixOf input then
        if level - 1 = 0 then some suf.length
        else
          (scanBlockSpec pre suf n (level - 1) (input.drop suf.length)).map
            (fun k => suf.length + k)
      else if pre.isPrefixOf input then
        (scanBlockSpec pre suf n (level + 1) (input.drop pre.length)).map
          (fun k => pre.length + k)
      else
        (scanBlockSpec pre suf n level (input.drop 1)).map (fun k => 1 + k)

/-! ## Proof toolkit

The central invariant: every formatter computation only ever *appends* to the
output buffer, except through `resetSt`, which truncates back to a length the
buffer had on entry of the enclosing construct.  Consequently the buffer at
the start of any operation is a prefix of the buffer in any `ok` or `abort`
outcome.  This is what makes `buf.Truncate` in Go's `reset` an exact
restoration of the buffer contents. -/

@[simp] theorem bind_eq_mBind {α β : Type} (m : M α) (f : α → M β) :
    (m >>= f) = mBind m f := rfl

@[simp] theorem pure_eq_ok {α : Type} (a : α) :
    (pure a : M α) = fun s => Res.ok a s := rfl

theorem bufMono_pure {α : Type} (a : α) : BufMono (pure a : M α) := by
  intro s b h
  simp only [pure_eq_ok, resBuf] at h
  cases h
  exact List.prefix_refl _

theorem bufMono_mBind {α β : Type} {m : M α} {f : α → M β}
    (hm : BufMono m) (hf : ∀ a, BufMono (f a)) : BufMono (mBind m f) := by
  intro s b h
  unfold mBind at h
  cases hms : m s with
  | ok a s1 =>
      rw [hms] at h
      exact List.IsPrefix.trans (hm s s1.buf (by rw [hms]; rfl)) (hf a s1 b h)
  | abort s1 =>
      rw [hms] at h
      simp only [resBuf] at h
      cases h
      exact hm s s1.buf (by rw [hms]; rfl)
  | panicked => rw [hms] at h; simp [resBuf] at h
  | fuelOut => rw [hms] at h; simp [resBuf] at h

theorem bufMono_bind {α β : Type} {m : M α} {f : α → M β}
    (hm : BufMono m) (hf : ∀ a, BufMono (f a)) : BufMono (m >>= f) :=
  bufMono_mBind hm hf

theorem bufMono_ite {α : Type} (c : Prop) {inst : Decidable c} {m1 m2 : M α}
    (h1 : BufMono m1) (h2 : BufMono m2) : BufMono (@ite _ c inst m1 m2) := by
  cases inst with
  | isTrue hc => simpa [hc] using h1
  | isFalse hc => simpa [hc] using h2

theorem bufMono_getSt : BufMono getSt := by
  intro s b h
  simp only [getSt, resBuf] at h
  cases h
  exact List.prefix_refl _

theorem bufMono_modify {f : St → St} (h : ∀ s, (f s).buf = s.buf) :
    BufMono (modifySt f) := by
  intro s b hb
  simp only [modifySt, resBuf] at hb
  cases hb
  rw [h]

theorem bufMono_assert (b : Bool) : BufMono (assertM b) := by
  intro s bb h
  unfold assertM at h
  by_cases hb : b = true
  · simp only [hb, if_true, resBuf] at h
    cases h
    exact List.prefix_refl _
  · simp [hb, resBuf] at h

@[simp] theorem writeUpd_buf (c : Char) (s : St) :
    (writeUpd c s).buf = s.buf ++ [c] := by
  unfold writeUpd
  by_cases h : c = '\n' ∨ c = '\r' <;> simp [h]

@[simp] theorem writeUpd_cursor (c : Char) (s : St) :
    (writeUpd c s).cursor = s.cursor := by
  unfold writeUpd
  by_cases h : c = '\n' ∨ c = '\r' <;> simp [h]

@[simp] theorem writeUpd_source (c : Char) (s : St) :
    (writeUpd c s).source = s.source := by
  unfold writeUpd
  by_cases h : c = '\n' ∨ c = '\r' <;> simp [h]

@[simp] theorem writeUpd_conf (c : Char) (s : St) :
    (writeUpd c s).conf = s.conf := by
  unfold writeUpd
  by_cases h : c = '\n' ∨ c = '\r' <;> simp [h]

@[simp] theorem writeUpd_discard (c : Char) (s : St) :
    (writeUpd c s).discard = s.discard := by
  unfold writeUpd
  by_cases h : c = '\n' ∨ c = '\r' <;> simp [h]

@[simp] theorem writeUpd_snapshot (c : Char) (s : St) :
    (writeUpd c s).snapshot = s.snapshot := by
  unfold writeUpd
  by_cases h : c = '\n' ∨ c = '\r' <;> simp [h]

@[simp] theorem writeUpd_indent (c : Char) (s : St) :
    (writeUpd c s).indent = s.indent := by
  unfold writeUpd
  by_cases h : c = '\n' ∨ c = '\r' <;> simp [h]

theorem bufMono_writeRune (c : Char) : BufMono (writeRuneM c) := by
  intro s b h
  unfold writeRuneM at h
  by_cases hd : s.discard
  · simp only [hd, if_true, resBuf] at h
    cases h
    exact List.prefix_refl _
  · simp only [hd, if_false, Bool.false_eq_true] at h
    cases hsn : (writeUpd c s).snapshot with
    | some prev =>
        rw [hsn] at h
        by_cases he : exceedsLine (writeUpd c s) prev = true
        · simp only [he, if_true, resBuf] at h
          cases h
          simp
        · simp only [he, if_false, Bool.false_eq_true, resBuf] at h
          cases h
          simp
    | none =>
        rw [hsn] at h
        simp only [resBuf] at h
        cases h
        simp

theorem bufMono_writeByte (c : Char) : BufMono (writeByteM c) :=
  bufMono_writeRune c

theorem bufMono_writeString (cs : List Char) : BufMono (writeStringM cs) := by
  induction cs with
  | nil => exact bufMono_pure ()
  | cons c cs ih =>
      unfold writeStringM
      exact bufMono_bind (bufMono_writeRune c) fun _ => ih

theorem bufMono_writeMaybeSeparator : BufMono writeMaybeSeparatorM := by
  unfold writeMaybeSeparatorM
  exact bufMono_bind bufMono_getSt fun s =>
    bufMono_ite _ (bufMono_writeByte ' ') (bufMono_pure ())

theorem bufMono_writeMaybeTrailingComma : BufMono writeMaybeTrailingCommaM := by
  unfold writeMaybeTrailingCommaM
  exact bufMono_bind bufMono_getSt fun s =>
    bufMono_ite _ (bufMono_writeByte ',') (bufMono_pure ())

theorem bufMono_writeMaybeNewline : BufMono writeMaybeNewlineM := by
  unfold writeMaybeNewlineM
  exact bufMono_bind bufMono_getSt fun s =>
    bufMono_ite _ (bufMono_writeByte '\n') (bufMono_pure ())

theorem bufMono_writeNewline : BufMono writeNewlineM := by
  unfold writeNewlineM
  exact bufMono_bind bufMono_getSt fun s0 =>
    bufMono_bind bufMono_writeMaybeNewline fun _ =>
      bufMono_bind bufMono_getSt fun s1 =>
        bufMono_ite _ (bufMono_pure ()) (bufMono_writeByte '\n')

theorem bufMono_writeIndentN (n : Nat) : BufMono (writeIndentN n) := by
  induction n with
  | zero => exact bufMono_pure ()
  | succ n ih =>
      unfold writeIndentN
      exact bufMono_bind bufMono_getSt fun s =>
        bufMono_bind (bufMono_writeString s.conf.Indent) fun _ => ih

theorem bufMono_writeIndent : BufMono writeIndentM := by
  unfold writeIndentM
  exact bufMono_bind bufMono_getSt fun s => bufMono_writeIndentN s.indent

theorem bufMono_writeMaybeNewlineIndent : BufMono writeMaybeNewlineIndentM := by
  unfold writeMaybeNewlineIndentM
  exact bufMono_bind bufMono_getSt fun s =>
    bufMono_ite _
      (bufMono_bind bufMono_writeMaybeNewline fun _ => bufMono_writeIndent)
      (bufMono_pure ())

theorem bufMono_writeMaybeCommentNewlineIndent :
    BufMono writeMaybeCommentNewlineIndentM := by
  unfold writeMaybeCommentNewlineIndentM
  exact bufMono_bind bufMono_getSt fun s =>
    bufMono_ite _ (bufMono_pure ()) bufMono_writeMaybeNewlineIndent

theorem bufMono_writeMaybeCommentNewline : BufMono writeMaybeCommentNewlineM := by
  unfold writeMaybeCommentNewlineM
  exact bufMono_bind bufMono_getSt fun s =>
    bufMono_ite _ (bufMono_pure ()) bufMono_writeMaybeNewline

theorem bufMono_skipByte : BufMono skipByteM :=
  bufMono_modify fun _ => rfl

theorem bufMono_skipChar : BufMono skipCharM := by
  apply bufMono_modify
  intro s
  by_cases h : s.cursor < s.source.length <;> simp [h]

theorem bufMono_skipString (str : List Char) : BufMono (skipStringM str) :=
  bufMono_modify fun _ => rfl

theorem bufMono_char : BufMono charM := by
  intro s b h
  unfold charM at h
  cases hr : restOf s with
  | nil => rw [hr] at h; simp [resBuf] at h
  | cons c cs =>
      rw [hr] at h
      refine bufMono_bind (bufMono_writeRune c)
        (fun _ => bufMono_modify ?_) s b h
      intro t
      rfl

theorem bufMono_byte : BufMono byteM := by
  intro s b h
  unfold byteM at h
  cases hr : restOf s with
  | nil => rw [hr] at h; simp [resBuf] at h
  | cons c cs =>
      rw [hr] at h
      refine bufMono_bind (bufMono_writeRune c)
        (fun _ => bufMono_modify ?_) s b h
      intro t
      rfl

theorem bufMono_strInc (str : List Char) : BufMono (strIncM str) := by
  unfold strIncM
  exact bufMono_bind (bufMono_writeString str) fun _ => bufMono_skipString str

theorem bufMono_scanned {m : M Unit} (hm : BufMono m) : BufMono (scannedM m) := by
  unfold scannedM
  exact bufMono_bind bufMono_getSt fun s0 =>
    bufMono_bind hm fun _ =>
      bufMono_bind bufMono_getSt fun s1 => bufMono_pure _

theorem bufMono_skipped : BufMono skippedM := by
  unfold skippedM
  exact bufMono_bind bufMono_getSt fun s =>
    bufMono_ite _
      (bufMono_bind bufMono_skipByte fun _ => bufMono_pure _)
      (bufMono_pure _)

theorem bufMono_fuelOut {α : Type} : BufMono (fun _ => (Res.fuelOut : Res α)) := by
  intro s b h
  simp [resBuf] at h

theorem bufMono_stringLoop (n : Nat) : BufMono (stringLoop n) := by
  induction n with
  | zero => exact bufMono_fuelOut
  | succ n ih =>
      unfold stringLoop
      refine bufMono_bind bufMono_getSt fun s => ?_
      refine bufMono_ite _ ?_ (bufMono_pure ())
      refine bufMono_ite _ bufMono_byte ?_
      refine bufMono_ite _ ?_ (bufMono_bind bufMono_char fun _ => ih)
      refine bufMono_bind bufMono_byte fun _ => ?_
      refine bufMono_bind bufMono_getSt fun s1 => ?_
      refine bufMono_ite _ ?_ ?_
      · exact bufMono_bind bufMono_char fun _ => ih
      · exact bufMono_bind (bufMono_pure ()) fun _ => ih

theorem bufMono_stringFn : BufMono stringFn := by
  unfold stringFn
  refine bufMono_bind bufMono_getSt fun s => ?_
  refine bufMono_bind (bufMono_assert _) fun _ => ?_
  refine bufMono_bind bufMono_byte fun _ => ?_
  exact bufMono_bind bufMono_getSt fun s1 => bufMono_stringLoop _

theorem bufMono_atomLoop (n : Nat) : BufMono (atomLoop n) := by
  induction n with
  | zero => exact bufMono_fuelOut
  | succ n ih =>
      unfold atomLoop
      refine bufMono_bind bufMono_getSt fun s => ?_
      exact bufMono_ite _ (bufMono_bind bufMono_char fun _ => ih) (bufMono_pure ())

theorem bufMono_atomFn : BufMono atomFn := by
  unfold atomFn
  exact bufMono_bind bufMono_getSt fun s => bufMono_atomLoop _

theorem bufMono_withDiscard {body : M Unit} (hb : BufMono body) :
    BufMono (withDiscard body) := by
  intro s b h
  unfold withDiscard at h
  cases hbs : body { s with discard := true } with
  | ok a s1 =>
      rw [hbs] at h
      simp only [resBuf] at h
      cases h
      have hp := hb { s with discard := true } s1.buf (by rw [hbs]; rfl)
      simpa using hp
  | abort s1 =>
      rw [hbs] at h
      simp only [resBuf] at h
      cases h
      have hp := hb { s with discard := true } s1.buf (by rw [hbs]; rfl)
      simpa using hp
  | panicked => rw [hbs] at h; simp [resBuf] at h
  | fuelOut => rw [hbs] at h; simp [resBuf] at h

theorem bufMono_commentSingleLoop (n : Nat) : BufMono (commentSingleLoop n) := by
  induction n with
  | zero => exact bufMono_fuelOut
  | succ n ih =>
      unfold commentSingleLoop
      refine bufMono_bind bufMono_getSt fun s => ?_
      refine bufMono_ite _ ?_ (bufMono_pure ())
      refine bufMono_ite _
        (bufMono_bind (bufMono_skipString _) fun _ => bufMono_writeNewline) ?_
      refine bufMono_ite _
        (bufMono_bind bufMono_skipByte fun _ => bufMono_writeNewline) ?_
      exact bufMono_bind bufMono_char fun _ => ih

theorem bufMono_commentSingleFn : BufMono commentSingleFn := by
  intro s b h
  unfold commentSingleFn at h
  have hbody : BufMono (do
      strIncM (nextCommentLineVal s)
      let s1 ← getSt
      commentSingleLoop (leftN s1 + 1)) :=
    bufMono_bind (bufMono_strInc _) fun _ =>
      bufMono_bind bufMono_getSt fun s1 => bufMono_commentSingleLoop _
  refine bufMono_bind (bufMono_assert _) (fun _ => ?_) s b h
  exact bufMono_ite _ (bufMono_withDiscard hbody) hbody

theorem bufMono_commentMultiLoop (pre suf : List Char) (n level : Nat) :
    BufMono (commentMultiLoop pre suf n level) := by
  induction n generalizing level with
  | zero => exact bufMono_fuelOut
  | succ n ih =>
      unfold commentMultiLoop
      refine bufMono_bind bufMono_getSt fun s => ?_
      refine bufMono_ite _ ?_ (bufMono_pure ())
      refine bufMono_ite _
        (bufMono_bind (bufMono_strInc _) fun _ =>
          bufMono_ite _ (bufMono_pure ()) (ih _)) ?_
      refine bufMono_ite _
        (bufMono_bind (bufMono_strInc _) fun _ => ih _) ?_
      exact bufMono_bind bufMono_char fun _ => ih _

theorem bufMono_commentMultiFn : BufMono commentMultiFn := by
  intro s b h
  unfold commentMultiFn at h
  have hbody : BufMono (do
      strIncM (nextCommentBlockVal s).1
      let s1 ← getSt
      commentMultiLoop (nextCommentBlockVal s).1 (nextCommentBlockVal s).2
        (leftN s1 + 1) 1) :=
    bufMono_bind (bufMono_strInc _) fun _ =>
      bufMono_bind bufMono_getSt fun s1 => bufMono_commentMultiLoop _ _ _ _
  refine bufMono_bind (bufMono_assert _) (fun _ => ?_) s b h
  exact bufMono_ite _ (bufMono_withDiscard hbody) hbody

theorem bufMono_hncbLoop {anyFn : M Unit} (ha : BufMono anyFn) (c : Char)
    (n : Nat) : BufMono (hncbLoop anyFn c n) := by
  induction n with
  | zero => exact bufMono_fuelOut
  | succ n ih =>
      unfold hncbLoop
      refine bufMono_bind bufMono_getSt fun s => ?_
      refine bufMono_ite _ ?_ (bufMono_pure _)
      refine bufMono_ite _ (bufMono_pure _) ?_
      refine bufMono_bind bufMono_skipped fun sk => ?_
      refine bufMono_ite _ ih ?_
      refine bufMono_bind bufMono_getSt fun s1 => ?_
      refine bufMono_ite _ ?_ (bufMono_pure _)
      refine bufMono_bind (bufMono_scanned ha) fun bb => ?_
      exact bufMono_bind (bufMono_assert _) fun _ => ih

theorem bufMono_hasNonCommentsBefore {anyFn : M Unit} (ha : BufMono anyFn)
    (c : Char) : BufMono (hasNonCommentsBeforeFn anyFn c) := by
  intro s b h
  unfold hasNonCommentsBeforeFn at h
  cases hl : hncbLoop anyFn c (leftN s + 1) s with
  | ok bb s1 =>
      rw [hl] at h
      simp only [resBuf] at h
      cases h
      have hp := bufMono_hncbLoop ha c (leftN s + 1) s s1.buf (by rw [hl]; rfl)
      simp only [resetSt, toSnap]
      rw [← List.prefix_iff_eq_take.mp hp]
  | abort s1 =>
      rw [hl] at h
      simp only [resBuf] at h
      cases h
      have hp := bufMono_hncbLoop ha c (leftN s + 1) s s1.buf (by rw [hl]; rfl)
      simp only [resetSt, toSnap]
      rw [← List.prefix_iff_eq_take.mp hp]
  | panicked => rw [hl] at h; simp [resBuf] at h
  | fuelOut => rw [hl] at h; simp [resBuf] at h

theorem bufMono_attemptSingle {body : M Unit} (hb : BufMono body) :
    BufMono (attemptSingle body) := by
  intro s b h
  unfold attemptSingle at h
  cases hbs : body { s with snapshot := some (toSnap s) } with
  | ok a s1 =>
      rw [hbs] at h
      simp only [resBuf] at h
      cases h
      have hp := hb { s with snapshot := some (toSnap s) } s1.buf (by rw [hbs]; rfl)
      simpa using hp
  | abort s1 =>
      rw [hbs] at h
      simp only [resBuf] at h
      cases h
      have hp : s.buf <+: s1.buf := by
        simpa using hb { s with snapshot := some (toSnap s) } s1.buf (by rw [hbs]; rfl)
      simp only [resetSt, toSnap]
      rw [← List.prefix_iff_eq_take.mp hp]
  | panicked => rw [hbs] at h; simp [resBuf] at h
  | fuelOut => rw [hbs] at h; simp [resBuf] at h

theorem bufMono_dictSingleLoop {anyFn : M Unit} (ha : BufMono anyFn)
    {hncb : Char → M Bool} (hh : ∀ c, BufMono (hncb c)) (n : Nat) (key : Bool) :
    BufMono (dictSingleLoop anyFn hncb n key) := by
  induction n generalizing key with
  | zero => exact bufMono_fuelOut
  | succ n ih =>
      unfold dictSingleLoop
      refine bufMono_bind bufMono_getSt fun s => ?_
      refine bufMono_ite _ ?_ (bufMono_pure ())
      refine bufMono_ite _ bufMono_byte ?_
      refine bufMono_bind bufMono_skipped fun sk => ?_
      refine bufMono_ite _ (ih _) ?_
      refine bufMono_bind bufMono_getSt fun s1 => ?_
      refine bufMono_ite _ ?_ ?_
      · refine bufMono_bind (bufMono_scanned ha) fun bb => ?_
        exact bufMono_bind (bufMono_assert _) fun _ => ih _
      refine bufMono_ite _ ?_ ?_
      · refine bufMono_bind (bufMono_scanned ha) fun bb => ?_
        refine bufMono_bind (bufMono_assert _) fun _ => ?_
        refine bufMono_bind (bufMono_writeByte ':') fun _ => ?_
        exact bufMono_bind bufMono_writeMaybeSeparator fun _ => ih _
      refine bufMono_bind (bufMono_scanned ha) fun bb => ?_
      refine bufMono_bind (bufMono_assert _) fun _ => ?_
      refine bufMono_bind (hh '}') fun hb => ?_
      refine bufMono_ite _ ?_ ?_
      · refine bufMono_bind (bufMono_writeByte ',') fun _ => ?_
        exact bufMono_bind bufMono_writeMaybeSeparator fun _ => ih _
      · exact bufMono_bind (bufMono_pure ()) fun _ => ih _

theorem bufMono_dictSingleBody {anyFn : M Unit} (ha : BufMono anyFn)
    {hncb : Char → M Bool} (hh : ∀ c, BufMono (hncb c)) :
    BufMono (dictSingleBody anyFn hncb) := by
  unfold dictSingleBody
  refine bufMono_bind bufMono_getSt fun s => ?_
  refine bufMono_bind (bufMono_assert _) fun _ => ?_
  refine bufMono_bind bufMono_byte fun _ => ?_
  exact bufMono_bind bufMono_getSt fun s1 => bufMono_dictSingleLoop ha hh _ _

theorem bufMono_dictMultiLoop {anyFn : M Unit} (ha : BufMono anyFn)
    {hncb : Char → M Bool} (hh : ∀ c, BufMono (hncb c)) (n : Nat) (key : Bool) :
    BufMono (dictMultiLoop anyFn hncb n key) := by
  induction n generalizing key with
  | zero => exact bufMono_fuelOut
  | succ n ih =>
      unfold dictMultiLoop
      refine bufMono_bind bufMono_getSt fun s => ?_
      refine bufMono_ite _ ?_ (bufMono_pure ())
      refine bufMono_ite _ ?_ ?_
      · refine bufMono_bind (bufMono_modify (fun _ => rfl)) fun _ => ?_
        exact bufMono_bind bufMono_writeMaybeNewlineIndent fun _ => bufMono_byte
      refine bufMono_bind bufMono_skipped fun sk => ?_
      refine bufMono_ite _ (ih _) ?_
      refine bufMono_bind bufMono_getSt fun s1 => ?_
      refine bufMono_ite _ ?_ ?_
      · refine bufMono_bind bufMono_writeMaybeCommentNewlineIndent fun _ => ?_
        refine bufMono_bind (bufMono_scanned ha) fun bb => ?_
        exact bufMono_bind (bufMono_assert _) fun _ => ih _
      refine bufMono_ite _ ?_ ?_
      · refine bufMono_bind bufMono_writeMaybeNewlineIndent fun _ => ?_
        refine bufMono_bind (bufMono_scanned ha) fun bb => ?_
        refine bufMono_bind (bufMono_assert _) fun _ => ?_
        refine bufMono_bind (bufMono_writeByte ':') fun _ => ?_
        exact bufMono_bind bufMono_writeMaybeSeparator fun _ => ih _
      refine bufMono_bind (bufMono_scanned ha) fun bb => ?_
      refine bufMono_bind (bufMono_assert _) fun _ => ?_
      refine bufMono_bind (hh '}') fun hb => ?_
      refine bufMono_ite _ ?_ ?_
      · exact bufMono_bind (bufMono_writeByte ',') fun _ => ih _
      · exact bufMono_bind bufMono_writeMaybeTrailingComma fun _ => ih _

theorem bufMono_dictMultiFn {anyFn : M Unit} (ha : BufMono anyFn)
    {hncb : Char → M Bool} (hh : ∀ c, BufMono (hncb c)) :
    BufMono (dictMultiFn anyFn hncb) := by
  unfold dictMultiFn
  refine bufMono_bind bufMono_getSt fun s => ?_
  refine bufMono_bind (bufMono_assert _) fun _ => ?_
  refine bufMono_bind (bufMono_modify (fun _ => rfl)) fun _ => ?_
  refine bufMono_bind bufMono_byte fun _ => ?_
  refine bufMono_bind bufMono_writeMaybeNewline fun _ => ?_
  exact bufMono_bind bufMono_getSt fun s1 => bufMono_dictMultiLoop ha hh _ _

theorem bufMono_dictSingleFn {anyFn : M Unit} (ha : BufMono anyFn) :
    BufMono (dictSingleFn anyFn) := by
  unfold dictSingleFn
  exact bufMono_attemptSingle
    (bufMono_dictSingleBody ha (bufMono_hasNonCommentsBefore ha))

theorem bufMono_dictFn {anyFn : M Unit} (ha : BufMono anyFn) :
    BufMono (dictFn anyFn) := by
  unfold dictFn
  refine bufMono_bind bufMono_getSt fun s => ?_
  refine bufMono_ite _ ?_
    (bufMono_dictMultiFn ha (bufMono_hasNonCommentsBefore ha))
  refine bufMono_bind (bufMono_scanned (bufMono_dictSingleFn ha)) fun b => ?_
  exact bufMono_ite _ (bufMono_pure ())
    (bufMono_dictMultiFn ha (bufMono_hasNonCommentsBefore ha))

theorem bufMono_listSingleLoop {anyFn : M Unit} (ha : BufMono anyFn)
    {hncb : Char → M Bool} (hh : ∀ c, BufMono (hncb c)) (n : Nat) :
    BufMono (listSingleLoop anyFn hncb n) := by
  induction n with
  | zero => exact bufMono_fuelOut
  | succ n ih =>
      unfold listSingleLoop
      refine bufMono_bind bufMono_getSt fun s => ?_
      refine bufMono_ite _ ?_ (bufMono_pure ())
      refine bufMono_ite _ bufMono_byte ?_
      refine bufMono_bind bufMono_skipped fun sk => ?_
      refine bufMono_ite _ ih ?_
      refine bufMono_bind bufMono_getSt fun s1 => ?_
      refine bufMono_ite _ ?_ ?_
      · refine bufMono_bind (bufMono_scanned ha) fun bb => ?_
        exact bufMono_bind (bufMono_assert _) fun _ => ih
      refine bufMono_bind (bufMono_scanned ha) fun bb => ?_
      refine bufMono_bind (bufMono_assert _) fun _ => ?_
      refine bufMono_bind (hh ']') fun hb => ?_
      refine bufMono_ite _ ?_ ?_
      · refine bufMono_bind (bufMono_writeByte ',') fun _ => ?_
        exact bufMono_bind bufMono_writeMaybeSeparator fun _ => ih
      · exact bufMono_bind (bufMono_pure ()) fun _ => ih

theorem bufMono_listSingleBody {anyFn : M Unit} (ha : BufMono anyFn)
    {hncb : Char → M Bool} (hh : ∀ c, BufMono (hncb c)) :
    BufMono (listSingleBody anyFn hncb) := by
  unfold listSingleBody
  refine bufMono_bind bufMono_getSt fun s => ?_
  refine bufMono_bind (bufMono_assert _) fun _ => ?_
  refine bufMono_bind bufMono_byte fun _ => ?_
  exact bufMono_bind bufMono_getSt fun s1 => bufMono_listSingleLoop ha hh _

theorem bufMono_listMultiLoop {anyFn : M Unit} (ha : BufMono anyFn)
    {hncb : Char → M Bool} (hh : ∀ c, BufMono (hncb c)) (n : Nat) :
    BufMono (listMultiLoop anyFn hncb n) := by
  induction n with
  | zero => exact bufMono_fuelOut
  | succ n ih =>
      unfold listMultiLoop
      refine bufMono_bind bufMono_getSt fun s => ?_
      refine bufMono_ite _ ?_ (bufMono_pure ())
      refine bufMono_ite _ ?_ ?_
      · refine bufMono_bind (bufMono_modify (fun _ => rfl)) fun _ => ?_
        exact bufMono_bind bufMono_writeMaybeNewlineIndent fun _ => bufMono_byte
      refine bufMono_bind bufMono_skipped fun sk => ?_
      refine bufMono_ite _ ih ?_
      refine bufMono_bind bufMono_getSt fun s1 => ?_
      refine bufMono_ite _ ?_ ?_
      · refine bufMono_bind bufMono_writeMaybeCommentNewlineIndent fun _ => ?_
        refine bufMono_bind (bufMono_scanned ha) fun bb => ?_
        exact bufMono_bind (bufMono_assert _) fun _ => ih
      refine bufMono_bind bufMono_writeMaybeNewlineIndent fun _ => ?_
      refine bufMono_bind (bufMono_scanned ha) fun bb => ?_
      refine bufMono_bind (bufMono_assert _) fun _ => ?_
      refine bufMono_bind (hh ']') fun hb => ?_
      refine bufMono_ite _ ?_ ?_
      · exact bufMono_bind (bufMono_writeByte ',') fun _ => ih
      · exact bufMono_bind bufMono_writeMaybeTrailingComma fun _ => ih

theorem bufMono_listMultiFn {anyFn : M Unit} (ha : BufMono anyFn)
    {hncb : Char → M Bool} (hh : ∀ c, BufMono (hncb c)) :
    BufMono (listMultiFn anyFn hncb) := by
  unfold listMultiFn
  refine bufMono_bind bufMono_getSt fun s => ?_
  refine bufMono_bind (bufMono_assert _) fun _ => ?_
  refine bufMono_bind (bufMono_modify (fun _ => rfl)) fun _ => ?_
  refine bufMono_bind bufMono_byte fun _ => ?_
  refine bufMono_bind bufMono_writeMaybeNewline fun _ => ?_
  exact bufMono_bind bufMono_getSt fun s1 => bufMono_listMultiLoop ha hh _

theorem bufMono_listSingleFn {anyFn : M Unit} (ha : BufMono anyFn) :
    BufMono (listSingleFn anyFn) := by
  unfold listSingleFn
  exact bufMono_attemptSingle
    (bufMono_listSingleBody ha (bufMono_hasNonCommentsBefore ha))

theorem bufMono_listFn {anyFn : M Unit} (ha : BufMono anyFn) :
    BufMono (listFn anyFn) := by
  unfold listFn
  refine bufMono_bind bufMono_getSt fun s => ?_
  refine bufMono_ite _ ?_
    (bufMono_listMultiFn ha (bufMono_hasNonCommentsBefore ha))
  refine bufMono_bind (bufMono_scanned (bufMono_listSingleFn ha)) fun b => ?_
  exact bufMono_ite _ (bufMono_pure ())
    (bufMono_listMultiFn ha (bufMono_hasNonCommentsBefore ha))

theorem bufMono_anyFuel (n : Nat) : BufMono (anyFuel n) := by
  induction n with
  | zero => exact bufMono_fuelOut
  | succ n ih =>
      unfold anyFuel
      refine bufMono_bind bufMono_getSt fun s => ?_
      refine bufMono_ite _ (bufMono_dictFn ih) ?_
      refine bufMono_ite _ (bufMono_listFn ih) ?_
      refine bufMono_ite _ bufMono_stringFn ?_
      refine bufMono_ite _ bufMono_commentSingleFn ?_
      exact bufMono_ite _ bufMono_commentMultiFn bufMono_atomFn

/-! ## Effect lemmas for snapshot-free runs

When no snapshot is active, `writeRune` cannot abort, so the leaf writers
and scanners are simple state transformers. -/

theorem writeRune_noSnap (c : Char) (s : St) (h : s.snapshot = none) :
    writeRuneM c s = Res.ok () (if s.discard = true then s else writeUpd c s) := by
  unfold writeRuneM
  by_cases hd : s.discard = true
  · simp [hd]
  · simp [hd, h]

theorem sameCtx_refl (s : St) : SameCtx s s := ⟨rfl, rfl, rfl, rfl⟩

theorem sameCtx_trans {s s1 s2 : St} (h1 : SameCtx s s1) (h2 : SameCtx s1 s2) :
    SameCtx s s2 :=
  ⟨h2.1.trans h1.1, h2.2.1.trans h1.2.1, h2.2.2.1.trans h1.2.2.1,
    h2.2.2.2.trans h1.2.2.2⟩

theorem sameCtx_writeUpd (c : Char) (s : St) : SameCtx s (writeUpd c s) :=
  ⟨writeUpd_source c s, writeUpd_conf c s, writeUpd_discard c s,
    writeUpd_snapshot c s⟩

theorem writeString_noSnap (p : List Char) :
    ∀ s : St, s.snapshot = none →
      ∃ s1, writeStringM p s = Res.ok () s1 ∧
        s1.buf = s.buf ++ (if s.discard = true then [] else p) ∧
        s1.cursor = s.cursor ∧ SameCtx s s1 := by
  induction p with
  | nil =>
      intro s h
      refine ⟨s, rfl, ?_, rfl, sameCtx_refl s⟩
      by_cases hd : s.discard = true <;> simp [hd]
  | cons c cs ih =>
      intro s h
      have hw := writeRune_noSnap c s h
      by_cases hd : s.discard = true
      · rw [if_pos hd] at hw
        obtain ⟨s1, hrun, hbuf, hcur, hctx⟩ := ih s h
        refine ⟨s1, ?_, ?_, hcur, hctx⟩
        · show mBind (writeRuneM c) (fun _ => writeStringM cs) s = _
          unfold mBind
          rw [hw]
          exact hrun
        · rw [hbuf]
          simp [hd]
      · rw [if_neg hd] at hw
        have h2 : (writeUpd c s).snapshot = none := by simp [h]
        obtain ⟨s1, hrun, hbuf, hcur, hctx⟩ := ih (writeUpd c s) h2
        refine ⟨s1, ?_, ?_, by simpa using hcur,
          sameCtx_trans (sameCtx_writeUpd c s) hctx⟩
        · show mBind (writeRuneM c) (fun _ => writeStringM cs) s = _
          unfold mBind
          rw [hw]
          exact hrun
        · rw [hbuf]
          have hd2 : (writeUpd c s).discard = s.discard := writeUpd_discard c s
          rw [writeUpd_buf]
          rw [hd2]
          simp only [hd, if_false, Bool.false_eq_true]
          simp

theorem skipString_run (p : List Char) (s : St) :
    skipStringM p s = Res.ok () { s with cursor := s.cursor + p.length } := rfl

theorem strInc_noSnap (p : List Char) (s : St) (h : s.snapshot = none) :
    ∃ s1, strIncM p s = Res.ok () s1 ∧
      s1.buf = s.buf ++ (if s.discard = true then [] else p) ∧
      s1.cursor = s.cursor + p.length ∧ SameCtx s s1 := by
  obtain ⟨s1, hrun, hbuf, hcur, hctx⟩ := writeString_noSnap p s h
  refine ⟨{ s1 with cursor := s1.cursor + p.length }, ?_, by simpa using hbuf,
    by simp [hcur], ?_⟩
  · show mBind (writeStringM p) (fun _ => skipStringM p) s = _
    unfold mBind
    rw [hrun]
    rfl
  · exact ⟨hctx.1, hctx.2.1, hctx.2.2.1, hctx.2.2.2⟩

theorem char_noSnap (s : St) (c : Char) (r : List Char)
    (hr : restOf s = c :: r) (h : s.snapshot = none) :
    ∃ s1, charM s = Res.ok () s1 ∧
      s1.buf = s.buf ++ (if s.discard = true then [] else [c]) ∧
      s1.cursor = s.cursor + 1 ∧ SameCtx s s1 := by
  have hw := writeRune_noSnap c s h
  by_cases hd : s.discard = true
  · rw [if_pos hd] at hw
    refine ⟨{ s with cursor := s.cursor + 1 }, ?_, by simp [hd], rfl,
      ⟨rfl, rfl, rfl, rfl⟩⟩
    unfold charM
    rw [hr]
    show mBind (writeRuneM c) _ s = _
    unfold mBind
    rw [hw]
    rfl
  · rw [if_neg hd] at hw
    refine ⟨{ writeUpd c s with cursor := (writeUpd c s).cursor + 1 }, ?_,
      ?_, ?_, ?_⟩
    · unfold charM
      rw [hr]
      show mBind (writeRuneM c) _ s = _
      unfold mBind
      rw [hw]
      rfl
    · simp [hd]
    · simp
    · have := sameCtx_writeUpd c s
      exact ⟨this.1, this.2.1, this.2.2.1, this.2.2.2⟩

theorem writeMaybeNewline_noSnap (s : St) (h : s.snapshot = none) :
    writeMaybeNewlineM s = Res.ok ()
      (if (whitespaceB s && !hasNewlineSuffix s) = true then
        (if s.discard = true then s else writeUpd '\n' s)
      else s) := by
  have hw := writeRune_noSnap '\n' s h
  by_cases hc : (whitespaceB s && !hasNewlineSuffix s) = true
  · rw [if_pos hc]
    simp only [writeMaybeNewlineM, bind_eq_mBind, mBind, getSt]
    rw [if_pos hc]
    exact hw
  · rw [if_neg hc]
    simp only [writeMaybeNewlineM, bind_eq_mBind, mBind, getSt]
    rw [if_neg hc]
    rfl

theorem writeNewline_noSnap (s : St) (h : s.snapshot = none) :
    ∃ s1, writeNewlineM s = Res.ok () s1 ∧
      s1.buf = s.buf ++ (if s.discard = true then [] else ['\n']) ∧
      s1.cursor = s.cursor ∧ SameCtx s s1 := by
  have hmw := writeMaybeNewline_noSnap s h
  have hw := writeRune_noSnap '\n' s h
  by_cases hd : s.discard = true
  · rw [if_pos hd] at hw
    have hmw2 : writeMaybeNewlineM s = Res.ok () s := by
      rw [hmw]
      by_cases hc : (whitespaceB s && !hasNewlineSuffix s) = true <;>
        simp [hc, hd]
    refine ⟨s, ?_, by simp [hd], rfl, sameCtx_refl s⟩
    have hlen : ¬ s.buf.length < s.buf.length := by omega
    simp only [writeNewlineM, bind_eq_mBind, mBind, getSt, hmw2]
    simp [hlen, writeByteM, hw]
  · rw [if_neg hd] at hw
    refine ⟨writeUpd '\n' s, ?_, by simp [hd], by simp,
      sameCtx_writeUpd '\n' s⟩
    by_cases hc : (whitespaceB s && !hasNewlineSuffix s) = true
    · have hmw2 : writeMaybeNewlineM s = Res.ok () (writeUpd '\n' s) := by
        rw [hmw, if_pos hc, if_neg hd]
      have hlen : s.buf.length < (writeUpd '\n' s).buf.length := by simp
      simp only [writeNewlineM, bind_eq_mBind, mBind, getSt, hmw2]
      simp [hlen]
    · have hmw2 : writeMaybeNewlineM s = Res.ok () s := by
        rw [hmw, if_neg hc]
      have hlen : ¬ s.buf.length < s.buf.length := by omega
      simp only [writeNewlineM, bind_eq_mBind, mBind, getSt, hmw2]
      simp [hlen, writeByteM, hw]

theorem isPrefixOf_eq_true_iff (l1 l2 : List Char) :
    l1.isPrefixOf l2 = true ↔ l1 <+: l2 := List.isPrefixOf_iff_prefix

theorem restOf_length (s : St) : (restOf s).length = leftN s := by
  unfold restOf leftN
  exact List.length_drop _ _

theorem moreB_iff (s : St) : moreB s = true ↔ restOf s ≠ [] := by
  unfold moreB
  rw [decide_eq_true_eq]
  constructor
  · intro hlt hnil
    have := restOf_length s
    rw [hnil] at this
    simp at this
    omega
  · intro hne
    have hlen : 0 < (restOf s).length := List.length_pos.mpr hne
    rw [restOf_length] at hlen
    exact hlen

theorem restOf_shift (s s1 : St) (k : Nat) (hs : s1.source = s.source)
    (hc : s1.cursor = s.cursor + k) : restOf s1 = (restOf s).drop k := by
  unfold restOf
  rw [hs, hc, List.drop_drop, Nat.add_comm]

theorem headChar_of_rest (s : St) (c : Char) (r : List Char)
    (hr : restOf s = c :: r) : headChar s = c := by
  unfold headChar
  rw [hr]

/-! ### Behaviour of the line-comment scanner on a terminated comment body -/

theorem commentSingleLoop_run (body : List Char) :
    ∀ (n : Nat) (tail : List Char) (s : St),
      body.length + 1 ≤ n →
      s.snapshot = none →
      restOf s = body ++ '\n' :: tail →
      (∀ c ∈ body, c ≠ '\n' ∧ c ≠ '\r') →
      ∃ s1, commentSingleLoop n s = Res.ok () s1 ∧
        s1.buf = s.buf ++ (if s.discard = true then [] else body ++ ['\n']) ∧
        s1.cursor = s.cursor + (body.length + 1) ∧ SameCtx s s1 := by
  induction body with
  | nil =>
      intro n tail s hn h hrest hchars
      obtain ⟨m, rfl⟩ : ∃ m, n = m + 1 := ⟨n - 1, by omega⟩
      have hmore : moreB s = true := (moreB_iff s).mpr (by rw [hrest]; simp)
      have hhead : headChar s = '\n' := headChar_of_rest s '\n' tail (by simpa using hrest)
      have hrn : ('\r' == '\n') = false := by decide
      have hpre : isNextPrefixB (("\r\n").data) s = false := by
        unfold isNextPrefixB
        rw [hrest]
        simp [List.isPrefixOf, hrn]
      have hnb : isNextByte '\n' s = true := by
        unfold isNextByte
        rw [hhead]
        simp
      have hsk : skipByteM s = Res.ok () { s with cursor := s.cursor + 1 } := rfl
      have hsn2 : ({ s with cursor := s.cursor + 1 } : St).snapshot = none := h
      obtain ⟨s1, hw, hbuf, hcur, hctx⟩ :=
        writeNewline_noSnap { s with cursor := s.cursor + 1 } hsn2
      refine ⟨s1, ?_, ?_, ?_, ?_⟩
      · simp only [commentSingleLoop, bind_eq_mBind, mBind, getSt]
        rw [if_pos hmore, hpre]
        simp only [Bool.false_eq_true, if_false, hnb, Bool.true_or, if_true]
        unfold mBind
        rw [hsk]
        exact hw
      · simpa using hbuf
      · simpa using hcur
      · exact sameCtx_trans ⟨rfl, rfl, rfl, rfl⟩ hctx
  | cons c cs ih =>
      intro n tail s hn h hrest hchars
      obtain ⟨m, rfl⟩ : ∃ m, n = m + 1 := ⟨n - 1, by omega⟩
      obtain ⟨hcn, hcr⟩ := hchars c (by simp)
      have hrest2 : restOf s = c :: (cs ++ '\n' :: tail) := by simpa using hrest
      have hmore : moreB s = true := (moreB_iff s).mpr (by rw [hrest2]; simp)
      have hhead : headChar s = c := headChar_of_rest s c _ hrest2
      have hrc : ('\r' == c) = false := by
        rw [beq_eq_false_iff_ne]
        exact fun hh => hcr hh.symm
      have hpre : isNextPrefixB (("\r\n").data) s = false := by
        unfold isNextPrefixB
        rw [hrest2]
        simp [List.isPrefixOf, hrc]
      have hnb : isNextByte '\n' s = false := by
        unfold isNextByte
        rw [hhead]
        simp [hcn]
      have hnr : isNextByte '\r' s = false := by
        unfold isNextByte
        rw [hhead]
        simp [hcr]
      obtain ⟨s2, hchar, hbuf2, hcur2, hctx2⟩ := char_noSnap s c _ hrest2 h
      have hrest3 : restOf s2 = cs ++ '\n' :: tail := by
        rw [restOf_shift s s2 1 hctx2.1 hcur2, hrest2]
        simp
      have hsn3 : s2.snapshot = none := by rw [hctx2.2.2.2, h]
      have hn2 : cs.length + 1 ≤ m := by
        simp only [List.length_cons] at hn
        omega
      obtain ⟨s1, hloop, hbuf1, hcur1, hctx1⟩ := ih m tail s2 hn2 hsn3 hrest3
        (fun d hd => hchars d (by simp [hd]))
      refine ⟨s1, ?_, ?_, ?_, sameCtx_trans hctx2 hctx1⟩
      · simp only [commentSingleLoop, bind_eq_mBind, mBind, getSt]
        rw [if_pos hmore, hpre]
        simp only [Bool.false_eq_true, if_false, hnb, hnr, Bool.or_self]
        unfold mBind
        rw [hchar]
        exact hloop
      · rw [hbuf1, hbuf2, hctx2.2.2.1]
        by_cases hd : s.discard = true <;> simp [hd]
      · rw [hcur1, hcur2]
        simp only [List.length_cons]
        omega

/-! ## Claim theorems -/

/-- C1 counterexample: the claim's abort condition ("the current output
column strictly exceeds Width") is false of the code for `Width ≥ 2^63`: Go
compares `self.col > int(self.conf.Width)` and the `uint64`-to-`int`
conversion wraps negative there, so every snapshotted write aborts.  At
`Width = 2^63`, a write at column 1 under a fresh snapshot aborts although
the output row did not move and the column does not exceed Width (first two
conjuncts), and consequently a dict whose 8-column single-line rendering fits
far within the width is nevertheless emitted multi-line (third conjunct). -/
theorem c1_width_wrap_counterexample :
    (∃ s1, writeRuneM 'x'
        { source := [], cursor := 0, conf := { Default with Width := 2 ^ 63 },
          buf := [], indent := 0, row := 0, col := 0, discard := false,
          snapshot := some
            { cursor := 0, indent := 0, row := 0, col := 0, bufLen := 0 } } =
        Res.abort s1) ∧
    ¬ ((0 : Nat) <
        (writeUpd 'x'
          { source := [], cursor := 0, conf := { Default with Width := 2 ^ 63 },
            buf := [], indent := 0, row := 0, col := 0, discard := false,
            snapshot := some
              { cursor := 0, indent := 0, row := 0, col := 0, bufLen := 0 } }).row ∨
      ({ Default with Width := 2 ^ 63 } : Conf).Width <
        (writeUpd 'x'
          { source := [], cursor := 0, conf := { Default with Width := 2 ^ 63 },
            buf := [], indent := 0, row := 0, col := 0, discard := false,
            snapshot := some
              { cursor := 0, indent := 0, row := 0, col := 0, bufLen := 0 } }).col) ∧
    FormatS { Default with Width := 2 ^ 63 } ("\x7b\"a\":1\x7d") =
      Out.ok (("\x7b\n  \"a\": 1\n\x7d\n").data) :=
  ⟨⟨writeUpd 'x'
      { source := [], cursor := 0, conf := { Default with Width := 2 ^ 63 },
        buf := [], indent := 0, row := 0, col := 0, discard := false,
        snapshot := some
          { cursor := 0, indent := 0, row := 0, col := 0, bufLen := 0 } },
    by rfl⟩, by decide, by rfl⟩

/-- C1 (amended): during a single-line attempt (snapshot active, not in
discard mode), writing one code point aborts the attempt exactly when the
write makes the output row exceed the row recorded in the active snapshot,
or the `uint64` width is nonzero and the output column strictly exceeds
`int64(Width)`, the two's-complement reinterpretation of the width (first
conjunct).  For every `Width < 2^63` that condition is exactly "the column
strictly exceeds Width" (second conjunct), and then a dict whose single-line
rendering fits within the width is emitted on a single line (third conjunct,
width 80) while one that does not fit is emitted multi-line (fourth
conjunct, width 10); for `Width ≥ 2^63` the reinterpretation is negative and
even a fitting dict is emitted multi-line (fifth conjunct). -/
theorem c1_single_line_abort_condition :
    (∀ (s : St) (c : Char) (prev : Snap), s.discard = false →
      s.snapshot = some prev →
      ((∃ s1, writeRuneM c s = Res.abort s1) ↔
        (prev.row < (writeUpd c s).row ∨
          (0 < widthVal s.conf ∧
            intOfUInt64 s.conf.Width < ((writeUpd c s).col : Int))))) ∧
    (∀ w col : Nat, w < 2 ^ 63 →
      (intOfUInt64 w < (col : Int) ↔ w < col)) ∧
    FormatS Default ("\x7b\"a\":[1,2,3]\x7d") =
      Out.ok (("\x7b\"a\": [1, 2, 3]\x7d\n").data) ∧
    FormatS { Default with Width := 10 }
      ("\x7b\"aaaa\": \"bbbb\", \"cccc\": \"dddd\"\x7d") =
      Out.ok (("\x7b\n  \"aaaa\": \"bbbb\",\n  \"cccc\": \"dddd\"\n\x7d\n").data) ∧
    FormatS { Default with Width := 2 ^ 63 } ("\x7b\"a\":1\x7d") =
      Out.ok (("\x7b\n  \"a\": 1\n\x7d\n").data) := by
  refine ⟨?_, ?_, by rfl, by rfl, by rfl⟩
  · intro s c prev hd hsn
    have hsn2 : (writeUpd c s).snapshot = some prev := by
      rw [writeUpd_snapshot, hsn]
    have hrun : writeRuneM c s =
        (if exceedsLine (writeUpd c s) prev = true then Res.abort (writeUpd c s)
        else Res.ok () (writeUpd c s)) := by
      unfold writeRuneM
      rw [hd]
      simp only [Bool.false_eq_true, if_false, hsn2]
    rw [hrun]
    by_cases he : exceedsLine (writeUpd c s) prev = true
    · rw [if_pos he]
      constructor
      · intro _
        simpa [exceedsLine, widthVal] using he
      · intro _
        exact ⟨writeUpd c s, rfl⟩
    · rw [if_neg he]
      constructor
      · rintro ⟨s1, hcontra⟩
        simp at hcontra
      · intro hcond
        exact absurd (by simpa [exceedsLine, widthVal] using hcond) he
  · intro w col hw
    have hlt : w < 2 ^ 64 := lt_trans hw (by norm_num)
    have hmod : w % 2 ^ 64 = w := Nat.mod_eq_of_lt hlt
    unfold intOfUInt64
    rw [hmod, if_pos hw]
    exact Nat.cast_lt

/-- C1 witness: a concrete write at column 80 with width 80 under an active
snapshot aborts. -/
theorem c1_single_line_abort_witness :
    ∃ s1, writeRuneM 'x'
      { source := [], cursor := 0, conf := Default, buf := [], indent := 0,
        row := 0, col := 80, discard := false,
        snapshot := some
          { cursor := 0, indent := 0, row := 0, col := 0, bufLen := 0 } } =
      Res.abort s1 := by
  apply (c1_single_line_abort_condition.1 _ 'x' _ rfl rfl).mpr
  right
  exact ⟨by decide, by decide⟩

/-- C10: outside discard mode, writing any code point appends exactly that
code point to the buffer; a newline or carriage return increments the row and
resets the column to 0, and any other code point — whatever its UTF-8 byte
length, i.e. any `Char` — increments the column by exactly 1 and leaves the
row unchanged.  The updated state is `writeUpd c s`, on the ok path and on
the abort path alike, and its column is the quantity `exceedsLine` compares
against the width (see the C1 theorem). -/
theorem c10_rows_cols_count_code_points :
    ∀ (s : St) (c : Char), s.discard = false →
      (writeRuneM c s = Res.ok () (writeUpd c s) ∨
        writeRuneM c s = Res.abort (writeUpd c s)) ∧
      (writeUpd c s).buf = s.buf ++ [c] ∧
      ((c = '\n' ∨ c = '\r') →
        (writeUpd c s).row = s.row + 1 ∧ (writeUpd c s).col = 0) ∧
      (¬(c = '\n' ∨ c = '\r') →
        (writeUpd c s).col = s.col + 1 ∧ (writeUpd c s).row = s.row) := by
  intro s c hd
  refine ⟨?_, writeUpd_buf c s, ?_, ?_⟩
  · unfold writeRuneM
    rw [hd]
    simp only [Bool.false_eq_true, if_false]
    cases hsn : (writeUpd c s).snapshot with
    | some prev =>
        by_cases he : exceedsLine (writeUpd c s) prev = true
        · right
          simp [he]
        · left
          simp [he]
    | none => left; rfl
  · intro hc
    unfold writeUpd
    rw [if_pos hc]
    exact ⟨rfl, rfl⟩
  · intro hc
    unfold writeUpd
    rw [if_neg hc]
    exact ⟨rfl, rfl⟩

/-- C10 witness: a write of the two-byte code point U+00E9 at column 5 bumps
the column by exactly 1 (not by its byte length). -/
theorem c10_rows_cols_witness :
    (writeUpd (Char.ofNat 233)
        { source := [], cursor := 0, conf := Default, buf := [], indent := 0,
          row := 0, col := 5, discard := false, snapshot := none }).col =
      ({ source := [], cursor := 0, conf := Default, buf := [], indent := 0,
          row := 0, col := 5, discard := false, snapshot := none } : St).col + 1 ∧
    (writeUpd (Char.ofNat 233)
        { source := [], cursor := 0, conf := Default, buf := [], indent := 0,
          row := 0, col := 5, discard := false, snapshot := none }).row =
      ({ source := [], cursor := 0, conf := Default, buf := [], indent := 0,
          row := 0, col := 5, discard := false, snapshot := none } : St).row :=
  (c10_rows_cols_count_code_points _ (Char.ofNat 233) rfl).2.2.2 (by decide)

/-- C2: when the single-line attempt for a dict or a list aborts (the body
under the freshly pushed snapshot ends in a rollback), the attempt wrapper
returns normally with the state restored exactly to the moment the snapshot
was taken: cursor offset, indent depth, output row, output column, and the
output buffer contents all equal their values on entry, and the previously
active snapshot reference is restored, so nothing from the failed attempt
survives. -/
theorem c2_rollback_is_transactional :
    ∀ (n : Nat) (s : St),
      (isAbortRes (dictSingleBody (anyFuel n) (hasNonCommentsBeforeFn (anyFuel n))
          { s with snapshot := some (toSnap s) }) = true →
        ∃ s2, dictSingleFn (anyFuel n) s = Res.ok () s2 ∧
          s2.cursor = s.cursor ∧ s2.indent = s.indent ∧ s2.row = s.row ∧
          s2.col = s.col ∧ s2.buf = s.buf ∧ s2.snapshot = s.snapshot) ∧
      (isAbortRes (listSingleBody (anyFuel n) (hasNonCommentsBeforeFn (anyFuel n))
          { s with snapshot := some (toSnap s) }) = true →
        ∃ s2, listSingleFn (anyFuel n) s = Res.ok () s2 ∧
          s2.cursor = s.cursor ∧ s2.indent = s.indent ∧ s2.row = s.row ∧
          s2.col = s.col ∧ s2.buf = s.buf ∧ s2.snapshot = s.snapshot) := by
  intro n s
  constructor
  · intro hab
    cases hbody : dictSingleBody (anyFuel n) (hasNonCommentsBeforeFn (anyFuel n))
        { s with snapshot := some (toSnap s) } with
    | ok a s1 => rw [hbody] at hab; simp [isAbortRes] at hab
    | panicked => rw [hbody] at hab; simp [isAbortRes] at hab
    | fuelOut => rw [hbody] at hab; simp [isAbortRes] at hab
    | abort s1 =>
        have hpre : s.buf <+: s1.buf := by
          have := bufMono_dictSingleBody (bufMono_anyFuel n)
            (fun c => bufMono_hasNonCommentsBefore (bufMono_anyFuel n) c)
            { s with snapshot := some (toSnap s) } s1.buf (by rw [hbody]; rfl)
          simpa using this
        refine ⟨{ resetSt (toSnap s) s1 with snapshot := s.snapshot }, ?_,
          rfl, rfl, rfl, rfl, ?_, rfl⟩
        · simp only [dictSingleFn, attemptSingle, hbody]
        · show s1.buf.take s.buf.length = s.buf
          rw [← List.prefix_iff_eq_take.mp hpre]
  · intro hab
    cases hbody : listSingleBody (anyFuel n) (hasNonCommentsBeforeFn (anyFuel n))
        { s with snapshot := some (toSnap s) } with
    | ok a s1 => rw [hbody] at hab; simp [isAbortRes] at hab
    | panicked => rw [hbody] at hab; simp [isAbortRes] at hab
    | fuelOut => rw [hbody] at hab; simp [isAbortRes] at hab
    | abort s1 =>
        have hpre : s.buf <+: s1.buf := by
          have := bufMono_listSingleBody (bufMono_anyFuel n)
            (fun c => bufMono_hasNonCommentsBefore (bufMono_anyFuel n) c)
            { s with snapshot := some (toSnap s) } s1.buf (by rw [hbody]; rfl)
          simpa using this
        refine ⟨{ resetSt (toSnap s) s1 with snapshot := s.snapshot }, ?_,
          rfl, rfl, rfl, rfl, ?_, rfl⟩
        · simp only [listSingleFn, attemptSingle, hbody]
        · show s1.buf.take s.buf.length = s.buf
          rw [← List.prefix_iff_eq_take.mp hpre]

/-- C2 witness: the single-line attempts on a width-3 configuration abort on
concrete inputs (a dict and a list whose content overflows column 3), and the
wrapper hands back the entry state unchanged. -/
theorem c2_rollback_witness :
    (∃ s2, dictSingleFn (anyFuel 8)
        (initSt { Default with Width := 3 } (("\x7b\"aaaa\"\x7d").data)) =
        Res.ok () s2 ∧
      s2.cursor = (initSt { Default with Width := 3 }
        (("\x7b\"aaaa\"\x7d").data)).cursor ∧
      s2.indent = (initSt { Default with Width := 3 }
        (("\x7b\"aaaa\"\x7d").data)).indent ∧
      s2.row = (initSt { Default with Width := 3 }
        (("\x7b\"aaaa\"\x7d").data)).row ∧
      s2.col = (initSt { Default with Width := 3 }
        (("\x7b\"aaaa\"\x7d").data)).col ∧
      s2.buf = (initSt { Default with Width := 3 }
        (("\x7b\"aaaa\"\x7d").data)).buf ∧
      s2.snapshot = (initSt { Default with Width := 3 }
        (("\x7b\"aaaa\"\x7d").data)).snapshot) ∧
    (∃ s2, listSingleFn (anyFuel 8)
        (initSt { Default with Width := 3 } (("[\"aaaa\"]").data)) =
        Res.ok () s2 ∧
      s2.cursor = (initSt { Default with Width := 3 }
        (("[\"aaaa\"]").data)).cursor ∧
      s2.indent = (initSt { Default with Width := 3 }
        (("[\"aaaa\"]").data)).indent ∧
      s2.row = (initSt { Default with Width := 3 }
        (("[\"aaaa\"]").data)).row ∧
      s2.col = (initSt { Default with Width := 3 }
        (("[\"aaaa\"]").data)).col ∧
      s2.buf = (initSt { Default with Width := 3 }
        (("[\"aaaa\"]").data)).buf ∧
      s2.snapshot = (initSt { Default with Width := 3 }
        (("[\"aaaa\"]").data)).snapshot) :=
  ⟨(c2_rollback_is_transactional 8
      (initSt { Default with Width := 3 } (("\x7b\"aaaa\"\x7d").data))).1
    (by rfl),
   (c2_rollback_is_transactional 8
      (initSt { Default with Width := 3 } (("[\"aaaa\"]").data))).2
    (by rfl)⟩

/-- C9: the lookahead probe `hasNonCommentsBefore` is non-mutating: whenever
it returns normally, the cursor offset, indent depth, output row, output
column, output buffer length — indeed the whole buffer — equal their values
at the moment of the call. -/
theorem c9_probe_preserves_state :
    ∀ (n : Nat) (c : Char) (s : St),
      isOkRes (hasNonCommentsBeforeFn (anyFuel n) c s) = true →
      ∃ b s1, hasNonCommentsBeforeFn (anyFuel n) c s = Res.ok b s1 ∧
        s1.cursor = s.cursor ∧ s1.indent = s.indent ∧ s1.row = s.row ∧
        s1.col = s.col ∧ s1.buf.length = s.buf.length ∧ s1.buf = s.buf := by
  intro n c s hok
  cases hl : hncbLoop (anyFuel n) c (leftN s + 1) s with
  | ok b s1 =>
      have hpre : s.buf <+: s1.buf :=
        bufMono_hncbLoop (bufMono_anyFuel n) c (leftN s + 1) s s1.buf
          (by rw [hl]; rfl)
      have hbuf : s1.buf.take s.buf.length = s.buf := by
        rw [← List.prefix_iff_eq_take.mp hpre]
      refine ⟨b, resetSt (toSnap s) s1, ?_, rfl, rfl, rfl, rfl, ?_, ?_⟩
      · unfold hasNonCommentsBeforeFn
        rw [hl]
      · show (s1.buf.take s.buf.length).length = s.buf.length
        rw [hbuf]
      · exact hbuf
  | abort s1 =>
      unfold hasNonCommentsBeforeFn at hok
      rw [hl] at hok
      simp [isOkRes] at hok
  | panicked =>
      unfold hasNonCommentsBeforeFn at hok
      rw [hl] at hok
      simp [isOkRes] at hok
  | fuelOut =>
      unfold hasNonCommentsBeforeFn at hok
      rw [hl] at hok
      simp [isOkRes] at hok

/-- C9 witness: a concrete probe (next significant byte is an atom, target is
the closing brace) returns normally and preserves the state. -/
theorem c9_probe_witness :
    ∃ b s1, hasNonCommentsBeforeFn (anyFuel 5) '}'
        (initSt Default (("a\x7d").data)) = Res.ok b s1 ∧
      s1.cursor = (initSt Default (("a\x7d").data)).cursor ∧
      s1.indent = (initSt Default (("a\x7d").data)).indent ∧
      s1.row = (initSt Default (("a\x7d").data)).row ∧
      s1.col = (initSt Default (("a\x7d").data)).col ∧
      s1.buf.length = (initSt Default (("a\x7d").data)).buf.length ∧
      s1.buf = (initSt Default (("a\x7d").data)).buf :=
  c9_probe_preserves_state 5 '}' (initSt Default (("a\x7d").data)) (by rfl)

/-- C6: the claim's example behaviour holds — the bare atom `0` at top level
terminates and formats to exactly `0` followed by one newline — but `Format`
is not a total function of its inputs: on the two-byte input of an open brace
followed by a stray closing square bracket, the internal assertion
`assert(self.scannedAny())` in the dict scanner fails (a `]` is a terminal
byte, so `atom` consumes nothing and the cursor does not advance), which in
Go is an uncaught panic.  The multi-line path (width 0) panics on the same
input. -/
theorem c6_primitive_root_and_stray_bracket_panic :
    FormatS Default ("0") = Out.ok (("0\n").data) ∧
    FormatS Default ("\x7b]") = Out.panicked ∧
    FormatS { Default with Width := 0 } ("\x7b]") = Out.panicked :=
  ⟨rfl, rfl, rfl⟩

/-- C3 counterexample: formatting is not idempotent.  Under the default
configuration the input `{"` (open brace, double quote) formats to a text
containing an unterminated string; re-formatting that output, the string
swallows the emitted newline, the single-line attempt aborts on the row
change, and the dict is re-rendered multi-line, producing a different text. -/
theorem c3_idempotence_counterexample :
    FormatS Default ("\x7b\"") = Out.ok (("\x7b\": \n").data) ∧
    FormatS Default ("\x7b\": \n") = Out.ok (("\x7b\n  \": \n: \n").data) ∧
    ("\x7b\n  \": \n: \n").data ≠ ("\x7b\": \n").data :=
  ⟨rfl, rfl, by decide⟩

/-- C3 amended: idempotence fails for arbitrary input, but holds on the
specification's documented example inputs under their documented
configurations: the primitive root, the punctuation-repair example, the
nested block comment, and the readme's comment-and-trailing-comma example. -/
theorem c3_idempotent_on_documented_examples :
    (FormatS Default ("0") = Out.ok (("0\n").data) ∧
      FormatS Default ("0\n") = Out.ok (("0\n").data)) ∧
    (FormatS Default ("\x7b\"one\" \"two\" \"three\" \x7b\"four\" \"five\"\x7d\x7d") =
        Out.ok (("\x7b\"one\": \"two\", \"three\": \x7b\"four\": \"five\"\x7d\x7d\n").data) ∧
      FormatS Default
        ("\x7b\"one\": \"two\", \"three\": \x7b\"four\": \"five\"\x7d\x7d\n") =
        Out.ok (("\x7b\"one\": \"two\", \"three\": \x7b\"four\": \"five\"\x7d\x7d\n").data)) ∧
    (FormatS Default ("/* a /* b */ c */") =
        Out.ok (("/* a /* b */ c */\n").data) ∧
      FormatS Default ("/* a /* b */ c */\n") =
        Out.ok (("/* a /* b */ c */\n").data)) ∧
    (FormatS { Default with TrailingComma := true }
        ("\x7b// Line comment\n\"one\": \"two\", /* Block comment */ \"three\": 40\x7d") =
        Out.ok (("\x7b\n  // Line comment\n  \"one\": \"two\",\n  /* Block comment */\n  \"three\": 40,\n\x7d\n").data) ∧
      FormatS { Default with TrailingComma := true }
        ("\x7b\n  // Line comment\n  \"one\": \"two\",\n  /* Block comment */\n  \"three\": 40,\n\x7d\n") =
        Out.ok (("\x7b\n  // Line comment\n  \"one\": \"two\",\n  /* Block comment */\n  \"three\": 40,\n\x7d\n").data)) :=
  ⟨⟨rfl, rfl⟩, ⟨rfl, rfl⟩, ⟨rfl, rfl⟩, ⟨rfl, rfl⟩⟩

/-- C5: the trailing-comma writer emits a comma exactly when `TrailingComma`
is set (universal conjunct, snapshot-free states), it is invoked only on the
last element of the multi-line loops, and end to end: a multi-line list and
dict carry the trailing comma exactly when `TrailingComma` is true, while a
single-line rendering never does, even with `TrailingComma` set. -/
theorem c5_trailing_comma_only_multiline :
    (∀ s : St, s.snapshot = none →
      writeMaybeTrailingCommaM s = Res.ok ()
        (if s.conf.TrailingComma = true then
          (if s.discard = true then s else writeUpd ',' s)
        else s)) ∧
    FormatS { Default with Width := 0, TrailingComma := true } ("[1]") =
      Out.ok (("[\n  1,\n]\n").data) ∧
    FormatS { Default with Width := 0 } ("[1]") =
      Out.ok (("[\n  1\n]\n").data) ∧
    FormatS { Default with Width := 0, TrailingComma := true } ("\x7b\"a\":1\x7d") =
      Out.ok (("\x7b\n  \"a\": 1,\n\x7d\n").data) ∧
    FormatS { Default with TrailingComma := true } ("[1, 2]") =
      Out.ok (("[1, 2]\n").data) := by
  refine ⟨?_, rfl, rfl, rfl, rfl⟩
  intro s h
  by_cases ht : s.conf.TrailingComma = true
  · rw [if_pos ht]
    simp only [writeMaybeTrailingCommaM, bind_eq_mBind, mBind, getSt]
    rw [if_pos ht]
    exact writeRune_noSnap ',' s h
  · rw [if_neg ht]
    simp only [writeMaybeTrailingCommaM, bind_eq_mBind, mBind, getSt]
    rw [if_neg ht]
    rfl

/-- C5 witness: the trailing-comma writer at a concrete snapshot-free state
with `TrailingComma` enabled. -/
theorem c5_trailing_comma_witness :
    writeMaybeTrailingCommaM
        (initSt { Default with TrailingComma := true } []) =
      Res.ok ()
        (if (initSt { Default with TrailingComma := true }
            []).conf.TrailingComma = true then
          (if (initSt { Default with TrailingComma := true }
              []).discard = true then
            initSt { Default with TrailingComma := true } []
          else writeUpd ',' (initSt { Default with TrailingComma := true } []))
        else initSt { Default with TrailingComma := true } []) :=
  c5_trailing_comma_only_multiline.1
    (initSt { Default with TrailingComma := true } []) rfl

/-- C8 counterexample: the punctuation-repair example does not format to
*exactly* the claimed string — with spacing enabled the top-level driver
appends one newline after the value, so the actual output is the claimed
string plus a trailing newline. -/
theorem c8_exact_output_counterexample :
    FormatS Default ("\x7b\"one\" \"two\" \"three\" \x7b\"four\" \"five\"\x7d\x7d") ≠
      Out.ok (("\x7b\"one\": \"two\", \"three\": \x7b\"four\": \"five\"\x7d\x7d").data) := by
  decide

/-- C8 amended: input punctuation is never trusted or copied — a comma or
colon outside a string is skipped by the scanner without emitting anything
(universal conjunct) — and the example with missing punctuation formats to
exactly the claimed canonical text plus the single trailing newline that
spacing mode appends after a top-level value. -/
theorem c8_punctuation_repair :
    (∀ s : St, isNextPunctuation s = true →
      skippedM s = Res.ok true { s with cursor := s.cursor + 1 }) ∧
    FormatS Default ("\x7b\"one\" \"two\" \"three\" \x7b\"four\" \"five\"\x7d\x7d") =
      Out.ok (("\x7b\"one\": \"two\", \"three\": \x7b\"four\": \"five\"\x7d\x7d\n").data) := by
  refine ⟨?_, rfl⟩
  intro s hp
  have hcond : (isNextSpace s || isNextPunctuation s) = true := by
    rw [hp]
    simp
  simp only [skippedM, bind_eq_mBind, mBind, getSt]
  rw [if_pos hcond]
  rfl

/-- C8 witness: skipping a concrete stray comma advances the cursor by one
and emits nothing. -/
theorem c8_punctuation_witness :
    skippedM (initSt Default ((",").data)) =
      Res.ok true { initSt Default ((",").data) with
        cursor := (initSt Default ((",").data)).cursor + 1 } :=
  c8_punctuation_repair.1 (initSt Default ((",").data)) (by rfl)

/-- C4 counterexample: when `StripComments` is set, the newline is NOT still
written after a consumed line comment — the Go `defer setDiscard(false)` runs
only after `writeNewline`, so discard mode suppresses the comment's newline
too.  On this input the claim predicts output "\n0"; the code emits "0" with
no newline at all. -/
theorem c4_strip_comment_newline_counterexample :
    FormatS { Default with Indent := [], StripComments := true } ("//c\n0") =
      Out.ok (("0").data) ∧
    ¬ '\n' ∈ (("0").data) :=
  ⟨rfl, by decide⟩

/-- C4 (amended): a line comment whose body is terminated by a line break in
the input is copied to the output immediately followed by exactly one line
break when `StripComments` is false; when `StripComments` is true, discard
mode suppresses the comment text and its line break alike — nothing is
emitted for the comment, while the cursor advance over the consumed comment
is identical in both modes, so the scan of the remaining input is
unaffected. -/
theorem c4_line_comment_followed_by_newline :
    ∀ (s : St) (body tail : List Char),
      s.snapshot = none →
      s.discard = false →
      s.conf.CommentLine ≠ [] →
      restOf s = s.conf.CommentLine ++ (body ++ '\n' :: tail) →
      (∀ c ∈ body, c ≠ '\n' ∧ c ≠ '\r') →
      (s.conf.StripComments = false →
        ∃ s1, commentSingleFn s = Res.ok () s1 ∧
          s1.buf = s.buf ++ (s.conf.CommentLine ++ (body ++ ['\n'])) ∧
          s1.cursor =
            s.cursor + (s.conf.CommentLine.length + (body.length + 1))) ∧
      (s.conf.StripComments = true →
        ∃ s1, commentSingleFn s = Res.ok () s1 ∧ s1.buf = s.buf ∧
          s1.cursor =
            s.cursor + (s.conf.CommentLine.length + (body.length + 1))) := by
  intro s body tail hsn hd hcl hrest hchars
  have hemp : s.conf.CommentLine.isEmpty = false := by
    cases hcle : s.conf.CommentLine with
    | nil => exact absurd hcle hcl
    | cons a l => rfl
  have hpfx : isNextPrefixB s.conf.CommentLine s = true := by
    unfold isNextPrefixB
    rw [hrest]
    rw [isPrefixOf_eq_true_iff]
    exact List.prefix_append _ _
  have hplval : nextCommentLineVal s = s.conf.CommentLine := by
    unfold nextCommentLineVal
    simp [hemp, hpfx]
  constructor
  · intro hstrip
    obtain ⟨s2, hstr, hbuf2, hcur2, hctx2⟩ := strInc_noSnap s.conf.CommentLine s hsn
    have hrest2 : restOf s2 = body ++ '\n' :: tail := by
      rw [restOf_shift s s2 s.conf.CommentLine.length hctx2.1 hcur2, hrest]
      exact List.drop_left _ _
    have hsn2 : s2.snapshot = none := by rw [hctx2.2.2.2, hsn]
    have hfuel : body.length + 1 ≤ leftN s2 + 1 := by
      have hlen := restOf_length s2
      rw [hrest2] at hlen
      simp at hlen
      omega
    obtain ⟨s1, hloop, hbuf1, hcur1, hctx1⟩ :=
      commentSingleLoop_run body (leftN s2 + 1) tail s2 hfuel hsn2 hrest2 hchars
    refine ⟨s1, ?_, ?_, ?_⟩
    · unfold commentSingleFn
      simp only [hplval, bind_eq_mBind, mBind, assertM, hemp, Bool.not_false,
        if_true, hstrip, Bool.false_eq_true, if_false]
      rw [hstr]
      simp only [getSt]
      exact hloop
    · rw [hbuf1, hbuf2, hctx2.2.2.1, hd]
      simp
    · rw [hcur1, hcur2]
      omega
  · intro hstrip
    have hsd : ({ s with discard := true } : St).snapshot = none := hsn
    obtain ⟨s2, hstr, hbuf2, hcur2, hctx2⟩ :=
      strInc_noSnap s.conf.CommentLine { s with discard := true } hsd
    have hrest2 : restOf s2 = body ++ '\n' :: tail := by
      rw [restOf_shift { s with discard := true } s2 s.conf.CommentLine.length
        hctx2.1 hcur2]
      show (restOf s).drop s.conf.CommentLine.length = _
      rw [hrest]
      exact List.drop_left _ _
    have hsn2 : s2.snapshot = none := by rw [hctx2.2.2.2]; exact hsn
    have hfuel : body.length + 1 ≤ leftN s2 + 1 := by
      have hlen := restOf_length s2
      rw [hrest2] at hlen
      simp at hlen
      omega
    obtain ⟨s1, hloop, hbuf1, hcur1, hctx1⟩ :=
      commentSingleLoop_run body (leftN s2 + 1) tail s2 hfuel hsn2 hrest2 hchars
    have hdisc2 : s2.discard = true := by rw [hctx2.2.2.1]
    refine ⟨{ s1 with discard := false }, ?_, ?_, ?_⟩
    · unfold commentSingleFn
      simp only [hplval, bind_eq_mBind, mBind, assertM, hemp, Bool.not_false,
        if_true, hstrip]
      unfold withDiscard
      simp only [mBind]
      rw [hstr]
      simp only [getSt]
      rw [hloop]
    · show s1.buf = s.buf
      rw [hbuf1, hbuf2, hdisc2]
      simp
    · show s1.cursor = _
      rw [hcur1, hcur2]
      show s.cursor + s.conf.CommentLine.length + (body.length + 1) = _
      omega

/-- C4 witness: a concrete terminated line comment, scanned once without
stripping (text plus exactly one newline emitted) and once with stripping
(nothing emitted), with identical cursor advance. -/
theorem c4_line_comment_witness :
    (∃ s1, commentSingleFn (initSt Default (("//hi\nz").data)) = Res.ok () s1 ∧
      s1.buf = (initSt Default (("//hi\nz").data)).buf ++
        ((initSt Default (("//hi\nz").data)).conf.CommentLine ++
          ((("hi").data) ++ ['\n'])) ∧
      s1.cursor = (initSt Default (("//hi\nz").data)).cursor +
        ((initSt Default (("//hi\nz").data)).conf.CommentLine.length +
          ((("hi").data).length + 1))) ∧
    (∃ s1, commentSingleFn
        (initSt { Default with StripComments := true } (("//hi\nz").data)) =
        Res.ok () s1 ∧
      s1.buf = (initSt { Default with StripComments := true }
        (("//hi\nz").data)).buf ∧
      s1.cursor = (initSt { Default with StripComments := true }
        (("//hi\nz").data)).cursor +
        ((initSt { Default with StripComments := true }
          (("//hi\nz").data)).conf.CommentLine.length +
          ((("hi").data).length + 1))) :=
  ⟨(c4_line_comment_followed_by_newline (initSt Default (("//hi\nz").data))
      (("hi").data) (("z").data) rfl rfl (by decide) (by decide)
      (by decide)).1 rfl,
   (c4_line_comment_followed_by_newline
      (initSt { Default with StripComments := true } (("//hi\nz").data))
      (("hi").data) (("z").data) rfl rfl (by decide) (by decide)
      (by decide)).2 rfl⟩

theorem take_len_add (l1 l2 : List Char) (k : Nat) :
    (l1 ++ l2).take (l1.length + k) = l1 ++ l2.take k := by
  induction l1 with
  | nil => simp
  | cons a l1 ih => simp [List.length_cons, Nat.succ_add, ih]

/-- The block-comment loop consumes exactly the code points described by the
reference nesting-counter scanner, and (outside discard mode) copies exactly
the consumed text to the output. -/
theorem commentMultiLoop_matches_spec :
    ∀ (pre suf : List Char) (n level k : Nat) (s : St),
      s.snapshot = none →
      scanBlockSpec pre suf n level (restOf s) = some k →
      ∃ s1, commentMultiLoop pre suf n level s = Res.ok () s1 ∧
        s1.cursor = s.cursor + k ∧
        s1.buf = s.buf ++ (if s.discard = true then [] else (restOf s).take k) ∧
        SameCtx s s1 := by
  intro pre suf n
  induction n with
  | zero =>
      intro level k s hsn hspec
      simp [scanBlockSpec] at hspec
  | succ m ih =>
      intro level k s hsn hspec
      by_cases hin : (restOf s).isEmpty = true
      · have hnil : restOf s = [] := by simpa [List.isEmpty_iff] using hin
        have hk : k = 0 := by
          simp [scanBlockSpec, hin] at hspec
          omega
        have hmore : moreB s = false := by
          cases hmm : moreB s with
          | false => rfl
          | true => exact absurd ((moreB_iff s).mp hmm) (by simp [hnil])
        refine ⟨s, ?_, by omega, by simp [hk], sameCtx_refl s⟩
        simp only [commentMultiLoop, bind_eq_mBind, mBind, getSt, hmore,
          Bool.false_eq_true, if_false]
        rfl
      · have hne : restOf s ≠ [] := by simpa [List.isEmpty_iff] using hin
        have hmore : moreB s = true := (moreB_iff s).mpr hne
        by_cases hsuf : suf.isPrefixOf (restOf s) = true
        · have hpfxB : isNextPrefixB suf s = true := hsuf
          obtain ⟨s2, hstr, hbuf2, hcur2, hctx2⟩ := strInc_noSnap suf s hsn
          have hrest2 : restOf s2 = (restOf s).drop suf.length :=
            restOf_shift s s2 suf.length hctx2.1 hcur2
          have hsufpre : suf <+: restOf s := (isPrefixOf_eq_true_iff _ _).mp hsuf
          have htake : (restOf s).take suf.length = suf :=
            (List.prefix_iff_eq_take.mp hsufpre).symm
          have hsplit : restOf s = suf ++ (restOf s).drop suf.length := by
            conv_lhs => rw [← List.take_append_drop suf.length (restOf s)]
            rw [htake]
          by_cases hlev : level - 1 = 0
          · have hk : k = suf.length := by
              simp [scanBlockSpec, hin, hsuf, hlev] at hspec
              omega
            refine ⟨s2, ?_, by omega, ?_, ?_⟩
            · simp only [commentMultiLoop, bind_eq_mBind, mBind, getSt, hmore,
                if_true, hpfxB]
              rw [hstr]
              simp only [hlev, if_pos]
              rfl
            · rw [hbuf2, hk, htake]
            · exact ⟨hctx2.1, hctx2.2.1, hctx2.2.2.1, hctx2.2.2.2⟩
          · have hspec2 : ∃ k2,
                scanBlockSpec pre suf m (level - 1) (restOf s2) = some k2 ∧
                  k = suf.length + k2 := by
              rw [hrest2]
              simp [scanBlockSpec, hin, hsuf, hlev] at hspec
              obtain ⟨k2, h1, h2⟩ := hspec
              exact ⟨k2, h1, h2.symm⟩
            obtain ⟨k2, hs2, hksum⟩ := hspec2
            have hsn2 : s2.snapshot = none := by rw [hctx2.2.2.2, hsn]
            obtain ⟨s1, hloop, hcur1, hbuf1, hctx1⟩ :=
              ih (level - 1) k2 s2 hsn2 hs2
            refine ⟨s1, ?_, ?_, ?_, sameCtx_trans hctx2 hctx1⟩
            · simp only [commentMultiLoop, bind_eq_mBind, mBind, getSt, hmore,
                if_true, hpfxB]
              rw [hstr]
              simp only [hlev, if_neg, Bool.false_eq_true]
              exact hloop
            · rw [hcur1, hcur2]
              omega
            · rw [hbuf1, hbuf2, hctx2.2.2.1, hrest2, hksum]
              conv_rhs => rw [hsplit]
              rw [take_len_add]
              by_cases hdc : s.discard = true <;> simp [hdc]
        · have hsufF : isNextPrefixB suf s = false := by
            unfold isNextPrefixB
            exact Bool.not_eq_true _ ▸ (by simpa using hsuf)
          by_cases hpre : pre.isPrefixOf (restOf s) = true
          · have hpfxB : isNextPrefixB pre s = true := hpre
            obtain ⟨s2, hstr, hbuf2, hcur2, hctx2⟩ := strInc_noSnap pre s hsn
            have hrest2 : restOf s2 = (restOf s).drop pre.length :=
              restOf_shift s s2 pre.length hctx2.1 hcur2
            have hprepre : pre <+: restOf s := (isPrefixOf_eq_true_iff _ _).mp hpre
            have htake : (restOf s).take pre.length = pre :=
              (List.prefix_iff_eq_take.mp hprepre).symm
            have hsplit : restOf s = pre ++ (restOf s).drop pre.length := by
              conv_lhs => rw [← List.take_append_drop pre.length (restOf s)]
              rw [htake]
            have hspec2 : ∃ k2,
                scanBlockSpec pre suf m (level + 1) (restOf s2) = some k2 ∧
                  k = pre.length + k2 := by
              rw [hrest2]
              simp [scanBlockSpec, hin, hsuf, hpre] at hspec
              obtain ⟨k2, h1, h2⟩ := hspec
              exact ⟨k2, h1, h2.symm⟩
            obtain ⟨k2, hs2, hksum⟩ := hspec2
            have hsn2 : s2.snapshot = none := by rw [hctx2.2.2.2, hsn]
            obtain ⟨s1, hloop, hcur1, hbuf1, hctx1⟩ :=
              ih (level + 1) k2 s2 hsn2 hs2
            refine ⟨s1, ?_, ?_, ?_, sameCtx_trans hctx2 hctx1⟩
            · simp only [commentMultiLoop, bind_eq_mBind, mBind, getSt, hmore,
                if_true, hsufF, Bool.false_eq_true, if_false, hpfxB]
              rw [hstr]
              exact hloop
            · rw [hcur1, hcur2]
              omega
            · rw [hbuf1, hbuf2, hctx2.2.2.1, hrest2, hksum]
              conv_rhs => rw [hsplit]
              rw [take_len_add]
              by_cases hdc : s.discard = true <;> simp [hdc]
          · have hpreF : isNextPrefixB pre s = false := by
              unfold isNextPrefixB
              exact Bool.not_eq_true _ ▸ (by simpa using hpre)
            obtain ⟨c, r, hrc⟩ : ∃ c r, restOf s = c :: r := by
              cases hx : restOf s with
              | nil => exact absurd hx hne
              | cons c r => exact ⟨c, r, rfl⟩
            obtain ⟨s2, hchar, hbuf2, hcur2, hctx2⟩ := char_noSnap s c r hrc hsn
            have hrest2 : restOf s2 = r := by
              rw [restOf_shift s s2 1 hctx2.1 hcur2, hrc]
              simp
            have hspec2 : ∃ k2,
                scanBlockSpec pre suf m level (restOf s2) = some k2 ∧
                  k = 1 + k2 := by
              rw [hrest2]
              simp only [scanBlockSpec, hin, Bool.false_eq_true, if_false,
                hsuf, hpre] at hspec
              rw [hrc] at hspec
              simp only [List.drop_succ_cons, List.drop_zero] at hspec
              obtain ⟨k2, h1, h2⟩ := Option.map_eq_some'.mp hspec
              exact ⟨k2, h1, h2.symm⟩
            obtain ⟨k2, hs2, hksum⟩ := hspec2
            have hsn2 : s2.snapshot = none := by rw [hctx2.2.2.2, hsn]
            obtain ⟨s1, hloop, hcur1, hbuf1, hctx1⟩ := ih level k2 s2 hsn2 hs2
            refine ⟨s1, ?_, ?_, ?_, sameCtx_trans hctx2 hctx1⟩
            · simp only [commentMultiLoop, bind_eq_mBind, mBind, getSt, hmore,
                if_true, hsufF, hpreF, Bool.false_eq_true, if_false]
              rw [hchar]
              exact hloop
            · rw [hcur1, hcur2]
              omega
            · rw [hbuf1, hbuf2, hctx2.2.2.1, hrest2, hksum, hrc]
              have : (c :: r).take (1 + k2) = c :: r.take k2 := by
                rw [Nat.add_comm]
                rfl
              rw [this]
              by_cases hdc : s.discard = true <;> simp [hdc]

/-- C7: the block-comment scanner follows the nesting-counter contract — it
consumes exactly the code points that the reference counter scanner
(`scanBlockSpec`, start at 1, +1 per start delimiter, -1 per end delimiter,
close at 0, end checked first) prescribes, copying them to the output outside
discard mode (first conjunct); on the body of the example the counter
consumes all 15 code points through the final `*/` rather than the 10 up to
the first `*/` (second conjunct); and end to end the example input is treated
as one single comment spanning to the final `*/` (third conjunct). -/
theorem c7_nested_block_comment_nesting :
    (∀ (pre suf : List Char) (n level k : Nat) (s : St),
      s.snapshot = none →
      scanBlockSpec pre suf n level (restOf s) = some k →
      ∃ s1, commentMultiLoop pre suf n level s = Res.ok () s1 ∧
        s1.cursor = s.cursor + k ∧
        s1.buf = s.buf ++ (if s.discard = true then [] else (restOf s).take k) ∧
        SameCtx s s1) ∧
    scanBlockSpec (("/*").data) (("*/").data) 20 1 ((" a /* b */ c */").data) =
      some 15 ∧
    FormatS Default ("/* a /* b */ c */") = Out.ok (("/* a /* b */ c */\n").data) :=
  ⟨commentMultiLoop_matches_spec, by decide, rfl⟩

/-- C7 witness: the loop on the concrete nested body consumes all 15 code
points and copies them verbatim. -/
theorem c7_nested_block_comment_witness :
    ∃ s1, commentMultiLoop (("/*").data) (("*/").data) 20 1
        (initSt Default ((" a /* b */ c */").data)) = Res.ok () s1 ∧
      s1.cursor = (initSt Default ((" a /* b */ c */").data)).cursor + 15 ∧
      s1.buf = (initSt Default ((" a /* b */ c */").data)).buf ++
        (if (initSt Default ((" a /* b */ c */").data)).discard = true then []
         else (restOf (initSt Default ((" a /* b */ c */").data))).take 15) ∧
      SameCtx (initSt Default ((" a /* b */ c */").data)) s1 :=
  c7_nested_block_comment_nesting.1 (("/*").data) (("*/").data) 20 1 15
    (initSt Default ((" a /* b */ c */").data)) rfl (by decide)

end Jsonfmt
